import Mathlib

/-!
Shallow embedding of the plandemic agent-simulation engine
(src/agents.py, src/board.py, src/controller.py, src/doors.py,
src/plan.py, src/cauldron.py) and proofs about its planning,
path-finding, movement and scheduling behaviour.

Conventions of the embedding:
* Python `float` positions are modelled by `ℚ` (exact real-number
  semantics of the arithmetic the code performs).
* Python `int` grid cells are `ℤ`; `int(x)` truncation toward zero is
  `pyInt`.
* Python dictionaries are association lists; a `KeyError` (and the other
  runtime exceptions `AttributeError` / `IndexError` the code can raise)
  is modelled by `Except.error ()`.
* `random.choice` / `random.randint` consume an explicit oracle of
  naturals (`Oracle`); `random.choice l` picks index `n % len(l)` and
  raises on an empty sequence, exactly like CPython.
* Python `Enum` equality is class-sensitive: `agents.py` shadows the
  `PlanType` imported from `plan.py` with its own three-member enum, so
  members of the two classes never compare equal.  `PlanTypeV` records
  the defining class together with the member to keep that behaviour.
-/

namespace Plandemic

/-- Oracle of random draws consumed by `random.choice` / `random.randint`. -/
abbrev Oracle := List Nat

/-- Pop one draw from the oracle (0 when exhausted). -/
def Oracle.next (o : Oracle) : Nat × Oracle := (o.headD 0, o.tail)

instance {e a : Type} [DecidableEq e] [DecidableEq a] :
    DecidableEq (Except e a) := fun x y =>
  match x, y with
  | Except.error e₁, Except.error e₂ =>
    decidable_of_iff (e₁ = e₂)
      ⟨fun h => by rw [h], fun h => by cases h; rfl⟩
  | Except.error _, Except.ok _ => Decidable.isFalse (fun h => by cases h)
  | Except.ok _, Except.error _ => Decidable.isFalse (fun h => by cases h)
  | Except.ok a₁, Except.ok a₂ =>
    decidable_of_iff (a₁ = a₂)
      ⟨fun h => by rw [h], fun h => by cases h; rfl⟩

/-- `random.choice(l)` with draw `n`: `none` models the `IndexError` on an
empty sequence. -/
def pyChoice {α : Type} (l : List α) (n : Nat) : Option α :=
  l.get? (n % l.length)

/-- `random.randint(lo, hi)` with draw `n` (both bounds inclusive). -/
def pyRandint (lo hi : Int) (n : Nat) : Int :=
  lo + (n % (hi - lo + 1).toNat)

/-- Python `int(x)` on a float: truncation toward zero. -/
def pyInt (q : ℚ) : ℤ := if q < 0 then ⌈q⌉ else ⌊q⌋

/-- Python `abs(x)`. -/
def pyAbs (q : ℚ) : ℚ := if q < 0 then -q else q

/-- First-match association-list lookup, the embedding of a Python dict
read `d[k]` (`none` = `KeyError`) and of `d.get(k, default)`. -/
def lookup {α : Type} : List (String × α) → String → Option α
  | [], _ => none
  | (k, v) :: rest, key => if k = key then some v else lookup rest key

/-- Python `Enum` member together with its defining class.  Two members are
equal exactly when both the class and the member name agree, which is how
CPython compares enum members of distinct (e.g. shadowed) classes. -/
structure PlanTypeV where
  cls : String
  member : String
deriving DecidableEq

/-- `plan.PlanType.STAY` (plan.py). -/
def planStay : PlanTypeV := ⟨"plan.PlanType", "stay"⟩
/-- `plan.PlanType.GOTO_ROOM` (plan.py). -/
def planGotoRoom : PlanTypeV := ⟨"plan.PlanType", "goto_room"⟩
/-- `plan.PlanType.FIND_AGENT` (plan.py). -/
def planFindAgent : PlanTypeV := ⟨"plan.PlanType", "find_agent"⟩
/-- `plan.PlanType.GO_TO_CAULDRON` (plan.py). -/
def planGoToCauldron : PlanTypeV := ⟨"plan.PlanType", "go_to_cauldron"⟩
/-- `agents.PlanType.STAY` (the shadowing enum defined in agents.py). -/
def agentsStay : PlanTypeV := ⟨"agents.PlanType", "stay"⟩
/-- `agents.PlanType.GOTO_ROOM` (agents.py). -/
def agentsGotoRoom : PlanTypeV := ⟨"agents.PlanType", "goto_room"⟩
/-- `agents.PlanType.FIND_AGENT` (agents.py). -/
def agentsFindAgent : PlanTypeV := ⟨"agents.PlanType", "find_agent"⟩

/-- Modelled from the spec: the `Role` enumeration of roles.py, which is
imported by board.py but absent from src/; board.py uses exactly the two
members `Role.WITCH` and `Role.IMPOSTOR` of the social-deduction variant. -/
inductive Role where
  | witch
  | impostor
deriving DecidableEq

/-- plan.py `Plan`: goal tag, target (room id or agent id), countdown and
visited-room bookkeeping. -/
structure Plan where
  type : PlanTypeV
  target : Option (String ⊕ Int)
  turns_remaining : Int := 0
  visited_rooms : List String := []
deriving DecidableEq

/-- doors.py `Door`. -/
structure Door where
  room1 : String
  room2 : String
  x1 : Int
  y1 : Int
  x2 : Int
  y2 : Int
deriving DecidableEq

/-- doors.py `Door.connects_rooms`. -/
def Door.connects_rooms (d : Door) (r1 r2 : String) : Prop :=
  (d.room1 = r1 ∧ d.room2 = r2) ∨ (d.room1 = r2 ∧ d.room2 = r1)

instance (d : Door) (r1 r2 : String) : Decidable (d.connects_rooms r1 r2) :=
  inferInstanceAs (Decidable ((d.room1 = r1 ∧ d.room2 = r2) ∨
    (d.room1 = r2 ∧ d.room2 = r1)))

/-- doors.py `Door.is_horizontal` (same y coordinates). -/
def Door.is_horizontal (d : Door) : Prop := d.y1 = d.y2

instance (d : Door) : Decidable d.is_horizontal :=
  inferInstanceAs (Decidable (d.y1 = d.y2))

/-- doors.py `Door.is_vertical` (same x coordinates). -/
def Door.is_vertical (d : Door) : Prop := d.x1 = d.x2

instance (d : Door) : Decidable d.is_vertical :=
  inferInstanceAs (Decidable (d.x1 = d.x2))

/-- doors.py `DoorManager`: door list plus the room-adjacency dict built
from the doors file. -/
structure DoorManager where
  doors : List Door
  room_connections : List (String × List String)
deriving DecidableEq

/-- doors.py `DoorManager.get_door_position`: midpoint of the first door
connecting the two rooms (Python `//` is floor division). -/
def DoorManager.get_door_position (dm : DoorManager) (r1 r2 : String) :
    Option (Int × Int) :=
  go dm.doors
where
  go : List Door → Option (Int × Int)
    | [] => none
    | d :: rest =>
      if d.connects_rooms r1 r2 then
        some (Int.fdiv (d.x1 + d.x2) 2, Int.fdiv (d.y1 + d.y2) 2)
      else go rest

/-- doors.py `DoorManager.get_doors_for_room`. -/
def DoorManager.get_doors_for_room (dm : DoorManager) (room : String) :
    List Door :=
  dm.doors.filter (fun d => d.room1 = room ∨ d.room2 = room)

/-- doors.py `DoorManager.get_door_between_rooms`: first door connecting
the two given rooms. -/
def DoorManager.get_door_between_rooms (dm : DoorManager) (r1 r2 : String) :
    Option Door :=
  go dm.doors
where
  go : List Door → Option Door
    | [] => none
    | d :: rest => if d.connects_rooms r1 r2 then some d else go rest

/-- cauldron.py `Cauldron`. -/
structure Cauldron where
  x : Int
  y : Int
  ingredients : Int := 0
deriving DecidableEq

/-- cauldron.py `Cauldron.deposit_ingredient`. -/
def Cauldron.deposit_ingredient (c : Cauldron) : Cauldron :=
  { c with ingredients := c.ingredients + 1 }

/-- board.py `Room` (color omitted: it is only read by the renderer). -/
structure Room where
  id : String
  cells : List (Int × Int)
  connected_rooms : List String
deriving DecidableEq

/-- agents.py `Agent` (the pygame color is kept as an opaque triple). -/
structure Agent where
  id : Int
  x : ℚ
  y : ℚ
  color : Int × Int × Int := (0, 0, 0)
  current_room : String
  plan : Option Plan := none
  personality : String := "neutral"
  memory : List String := []
  last_conversation_turn : Int := -1
  stuck : Bool := false
  speed : ℚ := 1 / 10
  target_x : Option ℚ := none
  target_y : Option ℚ := none
  waypoints : List (ℚ × ℚ) := []
  role : Role := Role.witch
  current_ingredient : Option String := none
deriving DecidableEq

/-- The static part of board.py `BoardGame`: rooms in insertion order, the
door manager, the cauldron and the ingredient name list. -/
structure Board where
  rooms : List (String × Room)
  door_manager : DoorManager
  cauldron : Cauldron
  ingredients_list : List String := ["eye", "shroom", "berry"]
deriving DecidableEq

/-- agents.py `Agent.needs_new_target`. -/
def Agent.needs_new_target (a : Agent) : Prop :=
  a.target_x = none ∧ a.target_y = none

instance (a : Agent) : Decidable a.needs_new_target :=
  inferInstanceAs (Decidable (a.target_x = none ∧ a.target_y = none))

/-- agents.py `Agent.remember_conversation`: append one formatted line and
drop the oldest when the bound of 10 is exceeded. -/
def Agent.remember_conversation (a : Agent) (other_id : Int)
    (dialogue : String) : Agent :=
  let memory := a.memory ++ [s!"With {other_id}: {dialogue}"]
  { a with memory := if memory.length > 10 then memory.tail else memory }

/-! ## Breadth-first search over the room adjacency graph
(board.py `BoardGame.find_path_to_room`). -/

/-- Inner `for next_room in connected_rooms` loop of the BFS: either an
early return with the completed path (the neighbour equals the target) or
the updated `(visited, queue)` pair, visiting neighbours in order. -/
def visitNeighbors (target : String) (path : List String) :
    List String → List String → List (String × List String) →
    (List String) ⊕ (List String × List (String × List String))
  | [], visited, queue => Sum.inr (visited, queue)
  | n :: ns, visited, queue =>
    if n = target then Sum.inl (path ++ [n])
    else if n ∈ visited then visitNeighbors target path ns visited queue
    else visitNeighbors target path ns (visited ++ [n])
      (queue ++ [(n, path ++ [n])])

/-- The `while queue:` loop of `find_path_to_room`, with explicit fuel.
`none` is fuel exhaustion (shown unreachable for the fuel chosen by
`find_path_to_room`); `some (.error ())` is the `KeyError` raised by
`room_connections[current_room]` when the popped room has no entry. -/
def bfsAux (conns : List (String × List String)) (target : String) :
    Nat → List (String × List String) → List String →
    Option (Except Unit (Option (List String)))
  | 0, _, _ => none
  | _ + 1, [], _ => some (Except.ok none)
  | fuel + 1, (current, path) :: rest, visited =>
    match lookup conns current with
    | none => some (Except.error ())
    | some neighbors =>
      match visitNeighbors target path neighbors visited rest with
      | Sum.inl found => some (Except.ok (some found))
      | Sum.inr (visited', queue') => bfsAux conns target fuel queue' visited'

/-- All room names occurring in the adjacency dict (keys and values); its
size bounds the number of BFS iterations. -/
def univ (conns : List (String × List String)) : List String :=
  conns.flatMap (fun p => p.1 :: p.2)

/-- board.py `BoardGame.find_path_to_room`: BFS from `start` to `target`
over `door_manager.room_connections`.  `Except.ok none` is the `return
None` for unreachable targets; `Except.error ()` the `KeyError` on a room
with no connections entry. -/
def find_path_to_room (conns : List (String × List String))
    (start target : String) : Except Unit (Option (List String)) :=
  if start = target then Except.ok (some [start])
  else
    match bfsAux conns target ((univ conns).length + 2) [(start, [start])]
        [start] with
    | some r => r
    | none => Except.error ()

/-- One hop of the room adjacency graph: `b` is listed among the
connections of `a`. -/
def edge (conns : List (String × List String)) (a b : String) : Prop :=
  ∃ ns, lookup conns a = some ns ∧ b ∈ ns

instance (conns : List (String × List String)) (a b : String) :
    Decidable (edge conns a b) :=
  match hlk : lookup conns a with
  | none => Decidable.isFalse (fun hcon => by
      obtain ⟨ns, h, _⟩ := hcon
      rw [hlk] at h
      cases h)
  | some ns =>
    if hb : b ∈ ns then Decidable.isTrue ⟨ns, hlk, hb⟩
    else Decidable.isFalse (fun hcon => by
      obtain ⟨ns', h, hb'⟩ := hcon
      rw [hlk] at h
      cases h
      exact hb hb')

/-- `p` is a room path from `A` to `B`: nonempty, starts at `A`, ends at
`B`, and every consecutive pair is an edge of the adjacency graph. -/
def pathOk (conns : List (String × List String)) (A B : String)
    (p : List String) : Prop :=
  p.head? = some A ∧ p.getLast? = some B ∧ List.Chain' (edge conns) p

instance (conns : List (String × List String)) (A B : String)
    (p : List String) : Decidable (pathOk conns A B p) :=
  inferInstanceAs (Decidable (p.head? = some A ∧ p.getLast? = some B ∧
    List.Chain' (edge conns) p))

/-- Well-formedness of the adjacency dict as built by
`DoorManager.load_from_file`: every room listed as a neighbour also has
its own entry. -/
def ValuesClosed (conns : List (String × List String)) : Prop :=
  ∀ p ∈ conns, ∀ n ∈ p.2, (lookup conns n).isSome

instance (conns : List (String × List String)) :
    Decidable (ValuesClosed conns) :=
  inferInstanceAs (Decidable (∀ p ∈ conns, ∀ n ∈ p.2,
    (lookup conns n).isSome))

/-! ## Point-to-room resolution and waypoint expansion
(board.py `get_room_at_position` / `find_path_through_doors`). -/

/-- Final `for room_id, room in self.rooms.items()` loop of
`get_room_at_position`: first room whose cell set contains the cell. -/
def containingRoom : List (String × Room) → (Int × Int) → Option String
  | [], _ => none
  | (rid, r) :: rest, cell =>
    if cell ∈ r.cells then some rid else containingRoom rest cell

/-- The `for door in doors:` loop of `get_room_at_position`: first door of
the current room whose midpoint is exactly the queried cell yields the
room on the other side. -/
def doorLoop (dm : DoorManager) (cell : Int × Int) (cr : String) :
    List Door → Option String
  | [] => none
  | d :: rest =>
    match dm.get_door_position d.room1 d.room2 with
    | some dp =>
      if cell = dp then
        let other := if cr = d.room1 then d.room2 else d.room1
        if d.connects_rooms cr other then some other
        else doorLoop dm cell cr rest
      else doorLoop dm cell cr rest
    | none => doorLoop dm cell cr rest

/-- board.py `BoardGame.get_room_at_position`.  The `Except` models the
`KeyError` of `self.rooms[current_room]` when the tracked room has no
entry; `if current_room:` string truthiness (empty string falsy) is kept. -/
def get_room_at_position (b : Board) (x y : ℚ)
    (current : Option String := none) : Except Unit (Option String) :=
  let cell := (pyInt x, pyInt y)
  let afterDoors : Option String :=
    match current with
    | some cr =>
      if cr = "" then none
      else doorLoop b.door_manager cell cr
        (b.door_manager.get_doors_for_room cr)
    | none => none
  match afterDoors with
  | some r => Except.ok (some r)
  | none =>
    match current with
    | some cr =>
      if cr = "" then Except.ok (containingRoom b.rooms cell)
      else
        match lookup b.rooms cr with
        | none => Except.error ()
        | some room =>
          if cell ∈ room.cells then Except.ok (some cr)
          else Except.ok (containingRoom b.rooms cell)
    | none => Except.ok (containingRoom b.rooms cell)

/-- The `for i in range(len(room_path) - 1)` loop of
`find_path_through_doors`: door midpoints of consecutive room pairs, in
order, skipping pairs for which no door is found. -/
def pairMidpoints (dm : DoorManager) : List String → List (Int × Int)
  | a :: b :: rest =>
    (match dm.get_door_position a b with
     | some dp => [dp]
     | none => []) ++ pairMidpoints dm (b :: rest)
  | _ => []

/-- board.py `BoardGame.find_path_through_doors`: resolve the target cell
to a room, then translate the BFS room path into door midpoints followed
by the target cell.  `[]` signals failure; the `Except` propagates the
BFS `KeyError`. -/
def find_path_through_doors (b : Board) (a : Agent) (tx ty : Int) :
    Except Unit (List (Int × Int)) :=
  match get_room_at_position b (tx : ℚ) (ty : ℚ) none with
  | Except.error e => Except.error e
  | Except.ok none => Except.ok []
  | Except.ok (some tr) =>
    if tr = "" then Except.ok []
    else if a.current_room = tr then
      if (a.x, a.y) = ((tx : ℚ), (ty : ℚ)) then Except.ok []
      else Except.ok [(tx, ty)]
    else
      match find_path_to_room b.door_manager.room_connections
          a.current_room tr with
      | Except.error e => Except.error e
      | Except.ok none => Except.ok []
      | Except.ok (some room_path) =>
        if room_path = [] then Except.ok []
        else
          Except.ok (pairMidpoints b.door_manager room_path ++ [(tx, ty)])

/-- agents.py `Agent.set_target`: validate the requested move through the
pathfinder, install the first waypoint as the immediate target and queue
the rest; on failure (empty waypoint list) leave the agent unchanged. -/
def Agent.set_target (a : Agent) (x y : ℚ) (b : Board) :
    Except Unit Agent :=
  if (a.x, a.y) = (x, y) then Except.ok a
  else
    match find_path_through_doors b a (pyInt x) (pyInt y) with
    | Except.error e => Except.error e
    | Except.ok [] => Except.ok a
    | Except.ok (w :: rest) =>
      Except.ok { a with
        target_x := some (w.1 : ℚ)
        target_y := some (w.2 : ℚ)
        waypoints := rest.map (fun p => ((p.1 : ℚ), (p.2 : ℚ))) }

/-! ## Plan selection (agents.py `choose_random_plan` / `ensure_plan`). -/

/-- Python `set.add` on the visited-rooms set. -/
def setAdd (l : List String) (x : String) : List String :=
  if x ∈ l then l else l ++ [x]

/-- agents.py `Agent.choose_random_plan`.  A stuck agent is forced into
GOTO_ROOM; otherwise the plan type is drawn from {STAY, GOTO_ROOM} (the
shadowing agents.py enum).  The failure paths return before `self.plan`
is assigned, leaving the plan unchanged. -/
def Agent.choose_random_plan (a : Agent) (b : Board) (o : Oracle) :
    Except Unit (Agent × Oracle) :=
  let pick :=
    if a.stuck then (agentsGotoRoom, o)
    else
      let (n, o') := o.next
      ((pyChoice [agentsStay, agentsGotoRoom] n).getD agentsStay, o')
  let plan_type := pick.1
  let o₁ := pick.2
  if plan_type = agentsStay then
    let (n, o₂) := o₁.next
    Except.ok ({ a with
      plan := some { type := agentsStay, target := none,
                     turns_remaining := pyRandint 1 4 n, visited_rooms := [] },
      stuck := false }, o₂)
  else if plan_type = agentsGotoRoom then
    let available_rooms :=
      (b.rooms.map Prod.fst).filter (fun r => r ≠ a.current_room)
    if available_rooms = [] then Except.ok (a, o₁)
    else
      let (n, o₂) := o₁.next
      match pyChoice available_rooms n with
      | none => Except.error ()
      | some target_room =>
        match lookup b.rooms target_room with
        | none => Except.error ()
        | some room =>
          let possible_positions :=
            room.cells.filter (fun pos => pos ≠ (pyInt a.x, pyInt a.y))
          if possible_positions = [] then
            Except.ok ({ a with stuck := true }, o₂)
          else
            let (m, o₃) := o₂.next
            match pyChoice possible_positions m with
            | none => Except.error ()
            | some target_pos =>
              match a.set_target (target_pos.1 : ℚ) (target_pos.2 : ℚ) b with
              | Except.error e => Except.error e
              | Except.ok a₁ =>
                Except.ok ({ a₁ with
                  plan := some { type := agentsGotoRoom,
                                 target := some (Sum.inl target_room),
                                 turns_remaining := 0,
                                 visited_rooms := [a.current_room] },
                  stuck := false }, o₃)
  else
    Except.ok ({ a with plan := none }, o₁)

/-- agents.py `Agent.ensure_plan`. -/
def Agent.ensure_plan (a : Agent) (b : Board) (o : Oracle) :
    Except Unit (Agent × Oracle) :=
  if a.plan = none then a.choose_random_plan b o else Except.ok (a, o)

/-! ## Movement (agents.py `Agent.update_position`). -/

/-- The `crossed` test computed in `update_position` for a door with
midpoint `dp`, as seen from room `oldRoom` at position `(x, y)`. -/
def crossedCond (d : Door) (dp : Int × Int) (oldRoom : String)
    (x y : ℚ) : Prop :=
  if d.is_horizontal then
    (oldRoom = d.room1 ∧ y > (dp.2 : ℚ)) ∨
    (oldRoom = d.room2 ∧ y < (dp.2 : ℚ))
  else
    (oldRoom = d.room1 ∧ x > (dp.1 : ℚ)) ∨
    (oldRoom = d.room2 ∧ x < (dp.1 : ℚ))

instance (d : Door) (dp : Int × Int) (oldRoom : String) (x y : ℚ) :
    Decidable (crossedCond d dp oldRoom x y) :=
  inferInstanceAs (Decidable (if d.is_horizontal then
    (oldRoom = d.room1 ∧ y > (dp.2 : ℚ)) ∨
    (oldRoom = d.room2 ∧ y < (dp.2 : ℚ))
  else
    (oldRoom = d.room1 ∧ x > (dp.1 : ℚ)) ∨
    (oldRoom = d.room2 ∧ x < (dp.1 : ℚ))))

/-- The `entry_pos` cell computed in `update_position`: one grid step
inside the next room relative to the door midpoint `dp`. -/
def entryPos (d : Door) (dp : Int × Int) (oldRoom : String) : ℚ × ℚ :=
  if d.is_horizontal then
    ((dp.1 : ℚ), (dp.2 : ℚ) + (if oldRoom = d.room1 then 1 else -1))
  else
    ((dp.1 : ℚ) + (if oldRoom = d.room1 then 1 else -1), (dp.2 : ℚ))

/-- The door entry-cell threshold condition of §4.4: the door between the
two rooms exists and the agent either crossed its line (`crossed`) or
stands exactly on the entry cell. -/
def thresholdCondition (dm : DoorManager) (oldRoom newRoom : String)
    (x y : ℚ) : Prop :=
  ∃ d dp, dm.get_door_between_rooms oldRoom newRoom = some d ∧
    dm.get_door_position d.room1 d.room2 = some dp ∧
    (crossedCond d dp oldRoom x y ∨ (x, y) = entryPos d dp oldRoom)

/-- The `self.target_x is None or self.target_y is None` branch of
`update_position`: waypoint advancement with door-threshold handling.
In the `crossed` branch the source falls through to the unconditional
`self.waypoints.pop(0)` below the door block, popping twice; the second
`pop(0)` on an exhausted list is the modelled `IndexError`. -/
def Agent.update_position_no_target (a : Agent) (b : Board) (o : Oracle) :
    Except Unit (Agent × Bool × Oracle) :=
  match a.waypoints with
  | [] =>
    match a.ensure_plan b o with
    | Except.error e => Except.error e
    | Except.ok (a₁, o₁) => Except.ok (a₁, true, o₁)
  | nw :: restWps =>
    match get_room_at_position b nw.1 nw.2 none with
    | Except.error e => Except.error e
    | Except.ok roomOfWp =>
      let fallthrough : Except Unit (Agent × Bool × Oracle) :=
        Except.ok
          ({ a with waypoints := restWps, target_x := some nw.1,
                    target_y := some nw.2 }, false, o)
      match roomOfWp with
      | none => fallthrough
      | some r =>
        if r = a.current_room then fallthrough
        else
          match b.door_manager.get_door_between_rooms a.current_room r with
          | none => fallthrough
          | some d =>
            match b.door_manager.get_door_position d.room1 d.room2 with
            | none => Except.error ()
            | some dp =>
              if crossedCond d dp a.current_room a.x a.y then
                match restWps with
                | [] => Except.error ()
                | _ :: rest2 =>
                  Except.ok
                    ({ a with current_room := r, waypoints := rest2,
                              target_x := some nw.1,
                              target_y := some nw.2 }, false, o)
              else
                let entry_pos := entryPos d dp a.current_room
                if (a.x, a.y) = entry_pos then
                  Except.ok
                    ({ a with current_room := r, waypoints := restWps,
                              target_x := some nw.1,
                              target_y := some nw.2 }, false, o)
                else
                  Except.ok
                    ({ a with target_x := some entry_pos.1,
                              target_y := some entry_pos.2 }, false, o)

/-- agents.py `Agent.update_position`.  The source's tail self-call after
snapping to the target always re-enters the no-target branch (both
targets were just cleared), so it is inlined as a call to
`update_position_no_target`. -/
def Agent.update_position (a : Agent) (b : Board) (o : Oracle) :
    Except Unit (Agent × Bool × Oracle) :=
  match a.target_x, a.target_y with
  | some tx, some ty =>
    let dx := tx - a.x
    let dy := ty - a.y
    if pyAbs dx < a.speed ∧ pyAbs dy < a.speed then
      Agent.update_position_no_target
        { a with x := tx, y := ty, target_x := none, target_y := none } b o
    else if pyAbs dx > a.speed then
      Except.ok ({ a with
                    x := a.x + (if dx > 0 then a.speed else -a.speed) },
        false, o)
    else if pyAbs dy > a.speed then
      Except.ok ({ a with
                    y := a.y + (if dy > 0 then a.speed else -a.speed) },
        false, o)
    else
      Except.ok (a, false, o)
  | _, _ => Agent.update_position_no_target a b o

/-! ## Plan execution and scheduling (board.py `execute_plan`,
`choose_new_plan`, `update`; controller.py `send_event`). -/

/-- Python `agent.current_room == agent.plan.target`: a string compares
equal only to the same string (never to an int or `None`). -/
def targetIsRoom (t : Option (String ⊕ Int)) (room : String) : Prop :=
  t = some (Sum.inl room)

instance (t : Option (String ⊕ Int)) (room : String) :
    Decidable (targetIsRoom t room) :=
  inferInstanceAs (Decidable (t = some (Sum.inl room)))

/-- board.py `BoardGame.execute_plan`.  Reading `agent.plan.type` on a
`None` plan is the modelled `AttributeError` (`Except.error`).  The
STAY/GOTO_ROOM tests compare against the plan.py enum members, which can
only match plans created in board.py — plans created by agents.py carry
the shadowing agents.py enum and fall through to the bare
`update_position` call. -/
def execute_plan (b : Board) (a : Agent) (o : Oracle) :
    Except Unit (Board × Agent × Oracle) :=
  match a.plan with
  | none => Except.error ()
  | some p =>
    if p.type = planGoToCauldron then
      match a.set_target (b.cauldron.x : ℚ) (b.cauldron.y : ℚ) b with
      | Except.error e => Except.error e
      | Except.ok a₁ =>
        if (a₁.x, a₁.y) = ((b.cauldron.x : ℚ), (b.cauldron.y : ℚ)) then
          let b' :=
            if a₁.role = Role.witch then
              { b with cauldron := b.cauldron.deposit_ingredient }
            else b
          Except.ok (b', { a₁ with plan := none }, o)
        else Except.ok (b, a₁, o)
    else
      let step1 : Except Unit Agent :=
        if a.target_x = none ∧ a.target_y = none ∧ a.waypoints ≠ [] then
          match a.waypoints with
          | [] => Except.error ()
          | nw :: _ =>
            match a.set_target nw.1 nw.2 b with
            | Except.error e => Except.error e
            | Except.ok a' =>
              if a'.target_x ≠ none then
                Except.ok { a' with waypoints := a'.waypoints.tail }
              else Except.ok a'
        else Except.ok a
      match step1 with
      | Except.error e => Except.error e
      | Except.ok a₁ =>
        match a₁.ensure_plan b o with
        | Except.error e => Except.error e
        | Except.ok (a₂, o₂) =>
          match a₂.plan with
          | none => Except.error ()
          | some p₂ =>
            let branch : Except Unit (Agent × Oracle) :=
              if p₂.type = planStay then
                let p₃ := { p₂ with turns_remaining := p₂.turns_remaining - 1 }
                Except.ok
                  (if p₃.turns_remaining ≤ 0 then { a₂ with plan := none }
                   else { a₂ with plan := some p₃ }, o₂)
              else if p₂.type = planGotoRoom then
                let ingStep : Except Unit (Agent × Oracle) :=
                  if a₂.current_ingredient = none then
                    let (n, o₃) := o₂.next
                    match pyChoice b.ingredients_list n with
                    | none => Except.error ()
                    | some ing =>
                      Except.ok ({ a₂ with current_ingredient := some ing }, o₃)
                  else Except.ok (a₂, o₂)
                match ingStep with
                | Except.error e => Except.error e
                | Except.ok (a₃, o₃) =>
                  match get_room_at_position b a₃.x a₃.y
                      (some a₃.current_room) with
                  | Except.error e => Except.error e
                  | Except.ok newRoom? =>
                    let a₄ :=
                      match newRoom? with
                      | some nr =>
                        if nr ≠ "" ∧ nr ≠ a₃.current_room then
                          { a₃ with
                            current_room := nr,
                            plan :=
                              match a₃.plan with
                              | some pp =>
                                some { pp with
                                       visited_rooms :=
                                         setAdd pp.visited_rooms nr }
                              | none => none }
                        else a₃
                      | none => a₃
                    if targetIsRoom p₂.target a₄.current_room ∧
                        a₄.waypoints = [] ∧ a₄.target_x = none ∧
                        a₄.target_y = none then
                      match a₄.set_target (b.cauldron.x : ℚ)
                          (b.cauldron.y : ℚ) b with
                      | Except.error e => Except.error e
                      | Except.ok a₅ =>
                        Except.ok ({ a₅ with
                          plan := some { type := planGoToCauldron,
                                         target := some (Sum.inl "cauldron"),
                                         turns_remaining := 0,
                                         visited_rooms := [] },
                          current_ingredient := none }, o₃)
                    else Except.ok (a₄, o₃)
              else Except.ok (a₂, o₂)
            match branch with
            | Except.error e => Except.error e
            | Except.ok (a₅, o₅) =>
              match a₅.update_position b o₅ with
              | Except.error e => Except.error e
              | Except.ok (a₆, _, o₆) => Except.ok (b, a₆, o₆)

/-- board.py `BoardGame.choose_new_plan`: for an idle (no plan) or STAY
agent, pick a random other room and cell in it (GOTO_ROOM), or head to
the cauldron when no other room exists.  Plan types here are the plan.py
enum. -/
def choose_new_plan (b : Board) (a : Agent) (o : Oracle) :
    Except Unit (Agent × Oracle) :=
  let body : Except Unit (Agent × Oracle) :=
    let available_rooms :=
      (b.rooms.map Prod.fst).filter (fun r => r ≠ a.current_room)
    if available_rooms ≠ [] then
      let (n, o₁) := o.next
      match pyChoice available_rooms n with
      | none => Except.error ()
      | some target_room =>
        match lookup b.rooms target_room with
        | none => Except.error ()
        | some room =>
          let (m, o₂) := o₁.next
          match pyChoice room.cells m with
          | none => Except.error ()
          | some tp =>
            match a.set_target (tp.1 : ℚ) (tp.2 : ℚ) b with
            | Except.error e => Except.error e
            | Except.ok a₁ =>
              Except.ok ({ a₁ with
                plan := some { type := planGotoRoom,
                               target := some (Sum.inl target_room),
                               turns_remaining := 0,
                               visited_rooms := [a.current_room] } }, o₂)
    else
      match a.set_target (b.cauldron.x : ℚ) (b.cauldron.y : ℚ) b with
      | Except.error e => Except.error e
      | Except.ok a₁ =>
        Except.ok ({ a₁ with
          plan := some { type := planGoToCauldron,
                         target := some (Sum.inl "cauldron"),
                         turns_remaining := 0, visited_rooms := [] } }, o)
  match a.plan with
  | none => body
  | some p => if p.type = planStay then body else Except.ok (a, o)

/-- board.py `BoardGame.update`: every frame, advance the position of
EVERY agent in list order, giving an agent that arrived with no pending
target a fresh plan. -/
def update_list (b : Board) : List Agent → Oracle →
    Except Unit (List Agent × Oracle)
  | [], o => Except.ok ([], o)
  | a :: rest, o =>
    match a.update_position b o with
    | Except.error e => Except.error e
    | Except.ok (a₁, arrived, o₁) =>
      let afterPlan : Except Unit (Agent × Oracle) :=
        if arrived = true ∧ a₁.needs_new_target then choose_new_plan b a₁ o₁
        else Except.ok (a₁, o₁)
      match afterPlan with
      | Except.error e => Except.error e
      | Except.ok (a₂, o₂) =>
        match update_list b rest o₂ with
        | Except.error e => Except.error e
        | Except.ok (rest', o₃) => Except.ok (a₂ :: rest', o₃)

/-- controller.py `GameController.send_event` for `AGENT_EXECUTE_PLAN`:
pick one agent at random and execute its plan; only that agent (and the
shared cauldron) is written. -/
def send_event (b : Board) (agents : List Agent) (o : Oracle) :
    Except Unit (Board × List Agent × Oracle) :=
  let (n, o₁) := o.next
  match pyChoice agents n with
  | none => Except.error ()
  | some a =>
    match execute_plan b a o₁ with
    | Except.error e => Except.error e
    | Except.ok (b', a', o₂) =>
      Except.ok (b', agents.set (n % agents.length) a', o₂)

/-- One pass of the body of `BoardGame.run` on a frame where the
scheduler tick fires: `self.update()` (which moves every agent) followed
by the controller's one-agent `AGENT_EXECUTE_PLAN` dispatch. -/
def frameStep (b : Board) (agents : List Agent) (o : Oracle) :
    Except Unit (Board × List Agent × Oracle) :=
  match update_list b agents o with
  | Except.error e => Except.error e
  | Except.ok (agents₁, o₁) => send_event b agents₁ o₁

/-! ## Concrete fixtures used by the counterexamples and witnesses. -/

/-- A board with no rooms and no doors (used where the board is never
consulted). -/
def emptyBoard : Board := ⟨[], ⟨[], []⟩, ⟨10, 7, 0⟩, ["eye"]⟩

/-- Two rooms joined by a vertical door with midpoint `(2, 0)`. -/
def c2Board : Board :=
  ⟨[("A", ⟨"A", [(0, 0), (1, 0)], ["B"]⟩),
    ("B", ⟨"B", [(3, 0), (4, 0)], ["A"]⟩)],
   ⟨[⟨"A", "B", 2, 0, 2, 1⟩], [("A", ["B"]), ("B", ["A"])]⟩,
   ⟨10, 7, 0⟩, ["eye"]⟩

/-- An agent with a board-created GOTO_ROOM plan standing exactly on the
door midpoint `(2, 0)` of `c2Board`. -/
def c2Agent : Agent :=
  { id := 1, x := 2, y := 0, current_room := "A",
    plan := some ⟨planGotoRoom, some (Sum.inl "C"), 0, ["A"]⟩,
    current_ingredient := some "eye" }

/-- An agent one cell past the `c2Board` door line, with two queued
waypoints inside room B. -/
def c2CrossAgent : Agent :=
  { id := 1, x := 3, y := 0, current_room := "A",
    plan := some ⟨agentsStay, none, 2, []⟩,
    waypoints := [(3, 0), (4, 0)] }

/-- The state of `c2CrossAgent` after its threshold crossing. -/
def c2CrossResult : Agent :=
  { c2CrossAgent with current_room := "B", waypoints := ([] : List (ℚ × ℚ)),
                      target_x := some 3, target_y := some 0 }

/-- An agent whose target lies 1 cell right and 5 cells up. -/
def c5Agent : Agent :=
  { id := 0, x := 0, y := 0, current_room := "A",
    target_x := some 1, target_y := some 5 }

/-- An idle agent with no plan. -/
def c6Agent : Agent := { id := 0, x := 0, y := 0, current_room := "A" }

/-- Three rooms for the retry counterexample: the agent sits in A; room B
has a single cell equal to the agent's own cell (no valid destination);
room C has two free cells. -/
def c7Board : Board :=
  ⟨[("A", ⟨"A", [(0, 0)], []⟩), ("B", ⟨"B", [(0, 0)], []⟩),
    ("C", ⟨"C", [(5, 5), (6, 5)], []⟩)],
   ⟨[], []⟩, ⟨10, 7, 0⟩, ["eye"]⟩

/-- A stuck agent in room A of `c7Board` at cell `(0, 0)`. -/
def c7Agent : Agent :=
  { id := 0, x := 0, y := 0, current_room := "A", stuck := true }

/-- Rooms B and C are joined by a door; room A is fully isolated (no
entry in `room_connections`). -/
def c8Board : Board :=
  ⟨[("A", ⟨"A", [(0, 0), (1, 0)], []⟩), ("B", ⟨"B", [(5, 5), (5, 6)], ["C"]⟩),
    ("C", ⟨"C", [(7, 7)], ["B"]⟩)],
   ⟨[⟨"B", "C", 6, 6, 6, 7⟩], [("B", ["C"]), ("C", ["B"])]⟩,
   ⟨10, 7, 0⟩, ["eye"]⟩

/-- A stuck agent in the isolated room A of `c8Board`. -/
def c8Agent : Agent :=
  { id := 0, x := 0, y := 0, current_room := "A", stuck := true }

/-- A witch standing on the cauldron cell with a GO_TO_CAULDRON plan. -/
def c9Witch : Agent :=
  { id := 0, x := 10, y := 7, current_room := "X",
    plan := some ⟨planGoToCauldron, some (Sum.inl "cauldron"), 0, []⟩,
    role := Role.witch }

/-- The impostor variant of `c9Witch`. -/
def c9Impostor : Agent := { c9Witch with role := Role.impostor }

/-- An agent with ten remembered conversation lines. -/
def c10Agent : Agent :=
  { id := 0, x := 0, y := 0, current_room := "A",
    memory := ["a", "b", "c", "d", "e", "f", "g", "h", "i", "j"] }

/-- Scheduler fixture: agent 0 idles on an agents.py STAY plan, agent 1
has a pending movement target five cells to the right. -/
def c1Agents : List Agent :=
  [{ id := 0, x := 0, y := 0, current_room := "A",
     plan := some ⟨agentsStay, none, 3, []⟩ },
   { id := 1, x := 0, y := 0, current_room := "A",
     target_x := some 5, target_y := some 0 }]

/-- Loop invariant of the BFS in `find_path_to_room`: queue entries are
valid shortest paths from `start`, their rooms are visited, the queue
levels are sorted within a window of one, the target is undiscovered,
processed rooms have all neighbours visited, and all queued rooms have a
connections entry. -/
structure BfsInv (conns : List (String × List String)) (start target : String)
    (queue : List (String × List String)) (visited : List String) : Prop where
  start_mem : start ∈ visited
  paths : ∀ rp ∈ queue, pathOk conns start rp.1 rp.2
  rooms_visited : ∀ rp ∈ queue, rp.1 ∈ visited
  target_not_visited : target ∉ visited
  sorted : queue.Pairwise (fun rp rq => rp.2.length ≤ rq.2.length)
  window : ∀ rp ∈ queue, ∀ rq ∈ queue, rp.2.length ≤ rq.2.length + 1
  opt : ∀ rp ∈ queue, ∀ q, pathOk conns start rp.1 q → rp.2.length ≤ q.length
  closure : ∀ v ∈ visited, (∀ rp ∈ queue, rp.1 ≠ v) →
    ∀ w, edge conns v w → w ∈ visited
  keys : ∀ rp ∈ queue, (lookup conns rp.1).isSome

/-- Number of `univ` entries not yet visited: the BFS's potential. -/
def countUnvisited (conns : List (String × List String))
    (visited : List String) : Nat :=
  ((univ conns).filter (fun r => decide (r ∉ visited))).length

/-- The three-room line graph A - B - C used by the C3 witness. -/
def c3Conns : List (String × List String) :=
  [("A", ["B"]), ("B", ["A", "C"]), ("C", ["B"])]

/-- Well-formedness matching `DoorManager.load_from_file`: every
adjacency listed in `room_connections` has a door (hence a midpoint) in
the door list. -/
def EdgesHaveDoors (dm : DoorManager) : Prop :=
  ∀ pr ∈ dm.room_connections, ∀ n ∈ pr.2,
    (dm.get_door_position pr.1 n).isSome

instance (dm : DoorManager) : Decidable (EdgesHaveDoors dm) :=
  inferInstanceAs (Decidable (∀ pr ∈ dm.room_connections, ∀ n ∈ pr.2,
    (dm.get_door_position pr.1 n).isSome))

/-- The two-room board used by the C4 witness. -/
def c4Board : Board :=
  ⟨[("A", ⟨"A", [(0, 0)], ["B"]⟩), ("B", ⟨"B", [(3, 0)], ["A"]⟩)],
   ⟨[⟨"A", "B", 2, 0, 2, 1⟩], [("A", ["B"]), ("B", ["A"])]⟩,
   ⟨10, 7, 0⟩, ["eye"]⟩

/-- The agent of the C4 witness, in room A. -/
def c4Agent : Agent := { id := 0, x := 0, y := 0, current_room := "A" }

/-- The C4 counterexample board: rooms A and B with no doors at all. -/
def c4cBoard : Board :=
  ⟨[("A", ⟨"A", [(0, 0)], []⟩), ("B", ⟨"B", [(3, 0)], []⟩)],
   ⟨[], []⟩, ⟨10, 7, 0⟩, ["eye"]⟩

/-- The agent of the C4 counterexample, in room A of `c4cBoard`. -/
def c4cAgent : Agent := { id := 0, x := 0, y := 0, current_room := "A" }

/-! ## C1 witness and counterexample fixtures. -/

/-- The idle agent 0 of the scheduler fixture. -/
def c1A0 : Agent :=
  { id := 0, x := 0, y := 0, current_room := "A",
    plan := some ⟨agentsStay, none, 3, []⟩ }

/-- Agent 1 of the scheduler fixture, with a pending movement target. -/
def c1A1 : Agent :=
  { id := 1, x := 0, y := 0, current_room := "A",
    target_x := some 5, target_y := some 0 }

/-- Agent 1 after its one horizontal speed step. -/
def c1A1Moved : Agent :=
  { c1A1 with x := c1A1.x +
      (if (5 : ℚ) - c1A1.x > 0 then c1A1.speed else -c1A1.speed) }

/-- The result of the one-agent dispatch on the scheduler fixture. -/
def c1Result : Board × List Agent × Oracle :=
  ((send_event emptyBoard [c1A0, c1A1] [0]).toOption).getD
    (emptyBoard, [], [])

/-! ## C6, C8: crashes of the per-tick plan step. -/

/-- C6: the claim says `execute_plan` on an agent whose plan is `None`
completes without error.  In fact the very first statement of
`execute_plan` reads `agent.plan.type`, which raises `AttributeError`
when the plan is `None`; the embedding returns the modelled exception
unconditionally. -/
theorem C6_execute_plan_on_none_plan_raises (b : Board) (a : Agent)
    (o : Oracle) (h : a.plan = none) : execute_plan b a o = Except.error () := by
  unfold execute_plan
  rw [h]

/-- C6 witness: the concrete idle agent with no plan makes `execute_plan`
raise. -/
theorem C6_witness : execute_plan emptyBoard c6Agent [] = Except.error () :=
  C6_execute_plan_on_none_plan_raises emptyBoard c6Agent [] rfl

/-- C8: the claim says plan creation from a fully isolated room clears
the plan without crashing and path planning reports "no path".  On
`c8Board`, room A has no entry in `room_connections`, and the forced
GOTO_ROOM attempt of the stuck agent reaches
`find_path_to_room`, whose `room_connections[current_room]` lookup
raises `KeyError` — the whole plan step aborts with the modelled
exception instead of reporting "no path". -/
theorem C8_isolated_room_plan_step_raises :
    Agent.choose_random_plan c8Agent c8Board [0, 0] = Except.error () ∧
    lookup c8Board.door_manager.room_connections c8Agent.current_room =
      none ∧
    c8Agent.stuck = true := by
  refine ⟨rfl, rfl, rfl⟩

/-! ## C9: the shared resource counter at the cauldron. -/

/-- C9 (amended): when an agent with a GO_TO_CAULDRON plan stands exactly
on the cauldron coordinate, its plan is cleared, and the ingredient
counter is incremented by exactly one if and only if the agent's role is
WITCH — a non-witch arrival clears the plan without incrementing. -/
theorem C9_cauldron_arrival (b : Board) (a : Agent) (o : Oracle) (p : Plan)
    (hp : a.plan = some p) (ht : p.type = planGoToCauldron)
    (hpos : (a.x, a.y) = ((b.cauldron.x : ℚ), (b.cauldron.y : ℚ))) :
    ∃ b' a', execute_plan b a o = Except.ok (b', a', o) ∧ a'.plan = none ∧
      b'.cauldron.ingredients =
        b.cauldron.ingredients + (if a.role = Role.witch then 1 else 0) := by
  unfold execute_plan
  rw [hp]
  dsimp only
  rw [if_pos ht]
  unfold Agent.set_target
  rw [if_pos hpos]
  dsimp only
  rw [if_pos hpos]
  by_cases hr : a.role = Role.witch
  · rw [if_pos hr]
    exact ⟨_, _, rfl, rfl, by simp [hr, Cauldron.deposit_ingredient]⟩
  · rw [if_neg hr]
    exact ⟨_, _, rfl, rfl, by simp [hr]⟩

/-- C9 witness: the concrete witch at the cauldron deposits exactly one
ingredient and goes idle. -/
theorem C9_witness :
    ∃ b' a', execute_plan emptyBoard c9Witch [] = Except.ok (b', a', []) ∧
      a'.plan = none ∧
      b'.cauldron.ingredients = emptyBoard.cauldron.ingredients +
        (if c9Witch.role = Role.witch then 1 else 0) :=
  C9_cauldron_arrival emptyBoard c9Witch [] _ rfl rfl rfl

/-- C9 counterexample: the claim as stated promises the increment for
every agent, but the impostor's arrival at the cauldron leaves the
counter unchanged (while still clearing the plan). -/
theorem C9_counterexample :
    execute_plan emptyBoard c9Impostor [] =
      Except.ok (emptyBoard, { c9Impostor with plan := none }, []) ∧
    (c9Impostor.x, c9Impostor.y) =
      ((emptyBoard.cauldron.x : ℚ), (emptyBoard.cauldron.y : ℚ)) ∧
    emptyBoard.cauldron.ingredients = 0 := by
  refine ⟨rfl, rfl, rfl⟩

/-! ## C10: the conversation memory bound. -/

/-- C10: `remember_conversation` appends exactly one line (which becomes
the most recent entry), keeps `len(memory) ≤ 10`, and discards exactly
the oldest line when the bound would be exceeded. -/
theorem C10_memory_bounded (a : Agent) (other_id : Int) (dialogue : String)
    (h : a.memory.length ≤ 10) :
    ((a.remember_conversation other_id dialogue).memory.length ≤ 10) ∧
    ((a.remember_conversation other_id dialogue).memory.getLast? =
      some s!"With {other_id}: {dialogue}") ∧
    (a.memory.length < 10 →
      (a.remember_conversation other_id dialogue).memory =
        a.memory ++ [s!"With {other_id}: {dialogue}"]) ∧
    (a.memory.length = 10 →
      (a.remember_conversation other_id dialogue).memory =
        a.memory.tail ++ [s!"With {other_id}: {dialogue}"]) := by
  unfold Agent.remember_conversation
  dsimp only
  by_cases h10 : a.memory.length = 10
  · obtain ⟨m0, rest, hm⟩ : ∃ m0 rest, a.memory = m0 :: rest := by
      cases hmem : a.memory with
      | nil => rw [hmem] at h10; simp at h10
      | cons m0 rest => exact ⟨m0, rest, rfl⟩
    have hrest : rest.length = 9 := by rw [hm] at h10; simpa using h10
    rw [hm]
    rw [if_pos (by simp [hrest])]
    simp only [List.cons_append, List.tail_cons]
    refine ⟨by simp [hrest], List.getLast?_concat _, ?_, fun _ => by trivial⟩
    intro hcon
    simp [hrest] at hcon
  · have hlt : a.memory.length < 10 := lt_of_le_of_ne h h10
    rw [if_neg (by simp; omega)]
    exact ⟨by simp; omega, List.getLast?_concat _, fun _ => rfl,
      fun hcon => absurd hcon h10⟩

/-! ## C5: cardinal movement. -/

/-- In the move branch with a horizontal displacement above one speed
step, `update_position` takes exactly one horizontal speed step. -/
theorem update_position_move_x (a : Agent) (b : Board) (o : Oracle)
    (tx ty : ℚ) (hx : a.target_x = some tx) (hy : a.target_y = some ty)
    (hns : ¬(pyAbs (tx - a.x) < a.speed ∧ pyAbs (ty - a.y) < a.speed))
    (h1 : pyAbs (tx - a.x) > a.speed) :
    a.update_position b o =
      Except.ok ({ a with
                   x := a.x + (if tx - a.x > 0 then a.speed else -a.speed) },
        false, o) := by
  unfold Agent.update_position
  rw [hx, hy]
  dsimp only
  rw [if_neg hns, if_pos h1]

/-- C5 (amended): when the agent has an immediate target and not both
axis displacements are below one speed step, it moves one speed step
along the horizontal axis whenever the horizontal displacement strictly
exceeds the speed (regardless of which axis has the larger remaining
displacement), otherwise along the vertical axis when that displacement
strictly exceeds the speed, and otherwise does not move at all; motion is
never diagonal and the room is unchanged. -/
theorem C5_horizontal_preferred (a : Agent) (b : Board) (o : Oracle)
    (tx ty : ℚ) (hx : a.target_x = some tx) (hy : a.target_y = some ty)
    (hns : ¬(pyAbs (tx - a.x) < a.speed ∧ pyAbs (ty - a.y) < a.speed)) :
    ∃ a', a.update_position b o = Except.ok (a', false, o) ∧
      a'.current_room = a.current_room ∧
      ¬(a'.x ≠ a.x ∧ a'.y ≠ a.y) ∧
      ((pyAbs (tx - a.x) > a.speed ∧ a'.y = a.y ∧
          a'.x = a.x + (if tx - a.x > 0 then a.speed else -a.speed)) ∨
       (¬pyAbs (tx - a.x) > a.speed ∧ pyAbs (ty - a.y) > a.speed ∧ a'.x = a.x ∧
          a'.y = a.y + (if ty - a.y > 0 then a.speed else -a.speed)) ∨
       (¬pyAbs (tx - a.x) > a.speed ∧ ¬pyAbs (ty - a.y) > a.speed ∧
          a'.x = a.x ∧ a'.y = a.y)) := by
  unfold Agent.update_position
  rw [hx, hy]
  dsimp only
  rw [if_neg hns]
  by_cases h1 : pyAbs (tx - a.x) > a.speed
  · rw [if_pos h1]
    exact ⟨_, rfl, rfl, fun hc => hc.2 rfl, Or.inl ⟨h1, rfl, rfl⟩⟩
  · rw [if_neg h1]
    by_cases h2 : pyAbs (ty - a.y) > a.speed
    · rw [if_pos h2]
      exact ⟨_, rfl, rfl, fun hc => hc.1 rfl, Or.inr (Or.inl ⟨h1, h2, rfl, rfl⟩)⟩
    · rw [if_neg h2]
      exact ⟨_, rfl, rfl, fun hc => hc.1 rfl, Or.inr (Or.inr ⟨h1, h2, rfl, rfl⟩)⟩

/-- C5 witness: a concrete agent with both displacements above one speed
step takes exactly one horizontal speed step. -/
theorem C5_witness :
    ∃ a', Agent.update_position c5Agent emptyBoard [] =
        Except.ok (a', false, []) ∧
      a'.current_room = c5Agent.current_room ∧
      ¬(a'.x ≠ c5Agent.x ∧ a'.y ≠ c5Agent.y) ∧
      ((pyAbs ((1 : ℚ) - c5Agent.x) > c5Agent.speed ∧ a'.y = c5Agent.y ∧
          a'.x = c5Agent.x +
            (if (1 : ℚ) - c5Agent.x > 0 then c5Agent.speed
             else -c5Agent.speed)) ∨
       (¬pyAbs ((1 : ℚ) - c5Agent.x) > c5Agent.speed ∧
          pyAbs ((5 : ℚ) - c5Agent.y) > c5Agent.speed ∧ a'.x = c5Agent.x ∧
          a'.y = c5Agent.y +
            (if (5 : ℚ) - c5Agent.y > 0 then c5Agent.speed
             else -c5Agent.speed)) ∨
       (¬pyAbs ((1 : ℚ) - c5Agent.x) > c5Agent.speed ∧
          ¬pyAbs ((5 : ℚ) - c5Agent.y) > c5Agent.speed ∧
          a'.x = c5Agent.x ∧ a'.y = c5Agent.y)) :=
  C5_horizontal_preferred c5Agent emptyBoard [] 1 5 rfl rfl
    (by norm_num [c5Agent, pyAbs])

/-- C5 counterexample: the claim as stated says the agent moves along
the axis with the larger remaining displacement.  Here the vertical
displacement (5) is larger than the horizontal one (1), yet the agent
moves horizontally and its y coordinate does not change. -/
theorem C5_counterexample :
    Agent.update_position c5Agent emptyBoard [] =
      Except.ok ({ c5Agent with
                   x := c5Agent.x + (if (1 : ℚ) - c5Agent.x > 0
                     then c5Agent.speed else -c5Agent.speed) },
        false, []) ∧
    pyAbs ((5 : ℚ) - c5Agent.y) > pyAbs ((1 : ℚ) - c5Agent.x) ∧
    ({ c5Agent with
       x := c5Agent.x + (if (1 : ℚ) - c5Agent.x > 0
         then c5Agent.speed else -c5Agent.speed) } : Agent).y = c5Agent.y ∧
    c5Agent.x + (if (1 : ℚ) - c5Agent.x > 0
      then c5Agent.speed else -c5Agent.speed) ≠ c5Agent.x := by
  refine ⟨update_position_move_x c5Agent emptyBoard [] 1 5 rfl rfl
      (by norm_num [c5Agent, pyAbs]) (by norm_num [c5Agent, pyAbs]),
    by norm_num [c5Agent, pyAbs], rfl, by norm_num [c5Agent]⟩

/-! ## C7: behaviour when the chosen target room has no free cell. -/

/-- C7 (amended): when a plan-creation attempt is forced into GOTO_ROOM
(stuck agent) and the drawn target room contains no valid destination
cell, `choose_random_plan` gives up immediately for the tick: it sets the
stuck flag, installs no plan, and consumes exactly one oracle draw — no
retry with a different target room happens. -/
theorem C7_no_retry (a : Agent) (b : Board) (o : Oracle)
    (target_room : String) (room : Room) (hstuck : a.stuck = true)
    (hpick : pyChoice
        ((b.rooms.map Prod.fst).filter (fun r => r ≠ a.current_room))
        (o.headD 0) = some target_room)
    (hroom : lookup b.rooms target_room = some room)
    (hempty : room.cells.filter
        (fun pos => pos ≠ (pyInt a.x, pyInt a.y)) = []) :
    a.choose_random_plan b o = Except.ok ({ a with stuck := true }, o.tail) := by
  unfold Agent.choose_random_plan
  rw [if_pos hstuck]
  dsimp only
  rw [if_neg (by decide : ¬(agentsGotoRoom = agentsStay)),
    if_pos (rfl : agentsGotoRoom = agentsGotoRoom)]
  have hne : (b.rooms.map Prod.fst).filter (fun r => r ≠ a.current_room) ≠ [] := by
    intro hnil
    rw [hnil] at hpick
    simp [pyChoice] at hpick
  rw [if_neg hne]
  simp only [Oracle.next]
  rw [hpick]
  dsimp only
  rw [hroom]
  dsimp only
  rw [if_pos hempty]

/-- C7 witness: the concrete stuck agent whose drawn target room B has no
free cell goes idle at once, with the stuck flag set and only the first
oracle draw consumed. -/
theorem C7_witness :
    Agent.choose_random_plan c7Agent c7Board [0, 1, 0] =
      Except.ok ({ c7Agent with stuck := true }, [1, 0]) :=
  C7_no_retry c7Agent c7Board [0, 1, 0] "B" ⟨"B", [(0, 0)], []⟩ rfl rfl rfl rfl

/-- C7 counterexample: the claim as stated promises a retry with a
different target room (default 5 attempts).  On `c7Board` the drawn room
B has no valid cell while room C has two; the code nevertheless returns
after the single attempt with no plan installed, never drawing room C,
although the remaining oracle entries would have selected it. -/
theorem C7_counterexample :
    Agent.choose_random_plan c7Agent c7Board [0, 1, 0] =
      Except.ok ({ c7Agent with stuck := true }, [1, 0]) ∧
    ({ c7Agent with stuck := true } : Agent).plan = none ∧
    (lookup c7Board.rooms "C").map
        (fun r => r.cells.filter
          (fun pos => pos ≠ (pyInt c7Agent.x, pyInt c7Agent.y))) =
      some [(5, 5), (6, 5)] := by
  refine ⟨rfl, rfl, rfl⟩

/-! ## C1: the one-agent-per-tick scheduling invariant. -/

/-- C1 (amended): the controller's AGENT_EXECUTE_PLAN dispatch runs
`execute_plan` for exactly one randomly selected agent, and the
dispatch itself leaves every other agent's state unchanged.  (The claim's
further assertion that non-selected agents do not move at all during the
tick fails: `BoardGame.update` advances every agent each frame, see the
counterexample.) -/
theorem C1_dispatch_writes_only_selected (b : Board) (agents : List Agent)
    (o : Oracle) (r : Board × List Agent × Oracle)
    (h : send_event b agents o = Except.ok r) :
    r.2.1.length = agents.length ∧
    ∀ j, j ≠ o.headD 0 % agents.length → r.2.1[j]? = agents[j]? := by
  unfold send_event at h
  simp only [Oracle.next] at h
  cases hc : pyChoice agents (o.headD 0) with
  | none => rw [hc] at h; simp at h
  | some a =>
    rw [hc] at h
    dsimp only at h
    cases he : execute_plan b a o.tail with
    | error e => rw [he] at h; simp at h
    | ok res =>
      obtain ⟨b', a', o₂⟩ := res
      rw [he] at h
      dsimp only at h
      cases h
      refine ⟨List.length_set .., fun j hj => ?_⟩
      exact List.getElem?_set_ne (fun hEq => hj hEq.symm)

/-! ## BFS verification (board.py `find_path_to_room`), used by C3, C4. -/

/-- A successful dict lookup comes from a member pair. -/
theorem lookup_mem {α : Type} (l : List (String × α)) (k : String) (v : α)
    (h : lookup l k = some v) : (k, v) ∈ l := by
  induction l with
  | nil => simp [lookup] at h
  | cons p rest ih =>
    obtain ⟨pk, pv⟩ := p
    unfold lookup at h
    split at h
    · rename_i heq
      cases h
      subst heq
      exact List.mem_cons_self ..
    · exact List.mem_cons_of_mem _ (ih h)

/-- Every neighbour listed in the dict lies in `univ`. -/
theorem edge_mem_univ (conns : List (String × List String)) (a b : String)
    (h : edge conns a b) : b ∈ univ conns := by
  obtain ⟨ns, hlk, hb⟩ := h
  have hm := lookup_mem _ _ _ hlk
  unfold univ
  exact List.mem_flatMap.mpr ⟨(a, ns), hm, List.mem_cons_of_mem _ hb⟩

/-- A room path is nonempty. -/
theorem pathOk_ne_nil (conns : List (String × List String)) (A B : String)
    (p : List String) (h : pathOk conns A B p) : p ≠ [] := by
  intro hnil
  rw [hnil] at h
  cases h.1

/-- The one-room path. -/
theorem pathOk_single (conns : List (String × List String)) (A : String) :
    pathOk conns A A [A] :=
  ⟨rfl, rfl, List.chain'_singleton A⟩

/-- Extending a room path along one edge. -/
theorem pathOk_snoc (conns : List (String × List String)) (A r s : String)
    (p : List String) (hp : pathOk conns A r p) (he : edge conns r s) :
    pathOk conns A s (p ++ [s]) := by
  obtain ⟨hh, hl, hc⟩ := hp
  refine ⟨?_, ?_, ?_⟩
  · simp [List.head?_append, hh]
  · simp
  · rw [List.chain'_append]
    exact ⟨hc, List.chain'_singleton s,
      fun x hx y hy => by
        rw [hl] at hx
        cases hx
        cases hy
        exact he⟩

/-- A room path either is the single-room path or decomposes as a
shorter path followed by one edge. -/
theorem pathOk_concat_cases (conns : List (String × List String))
    (A u : String) (p : List String) (h : pathOk conns A u p) :
    (p = [A] ∧ u = A) ∨
    ∃ p' v, p = p' ++ [u] ∧ pathOk conns A v p' ∧ edge conns v u := by
  obtain ⟨hh, hl, hc⟩ := h
  rcases List.eq_nil_or_concat p with rfl | ⟨L, b, rfl⟩
  · cases hh
  · rw [List.concat_eq_append] at hh hl hc ⊢
    have hb : b = u := by simpa using hl
    subst hb
    rcases Lcase : L with _ | ⟨a0, L'⟩
    · subst Lcase
      simp at hh
      exact Or.inl ⟨by simp [hh], hh⟩
    · rw [← Lcase]
      have hLne : L ≠ [] := by rw [Lcase]; simp
      rw [List.chain'_append] at hc
      obtain ⟨hcL, _, hlink⟩ := hc
      obtain ⟨v, hv⟩ : ∃ v, L.getLast? = some v := by
        cases hgl : L.getLast? with
        | none => exact absurd (List.getLast?_eq_none_iff.mp hgl) hLne
        | some v => exact ⟨v, rfl⟩
      refine Or.inr ⟨L, v, rfl, ⟨?_, hv, hcL⟩, hlink v hv b rfl⟩
      rw [List.head?_append] at hh
      cases hhl : L.head? with
      | none => exact absurd (List.head?_eq_none_iff.mp hhl) hLne
      | some a1 => rw [hhl] at hh; simpa using hh

/-- Inner-loop characterization: when `visitNeighbors` returns the
updated state, the new visited/queue entries are exactly the previously
unseen neighbours, in order, none of them the target, and every
neighbour ends up visited. -/
theorem visitNeighbors_inr (target : String) (path : List String) :
    ∀ (ns visited : List String) (queue : List (String × List String))
      (v' : List String) (q' : List (String × List String)),
    visitNeighbors target path ns visited queue = Sum.inr (v', q') →
    ∃ new : List String,
      v' = visited ++ new ∧
      q' = queue ++ new.map (fun n => (n, path ++ [n])) ∧
      new.Nodup ∧
      (∀ n ∈ new, n ∈ ns ∧ n ∉ visited) ∧
      (∀ n ∈ ns, n ≠ target) ∧
      (∀ n ∈ ns, n ∈ visited ∨ n ∈ new) := by
  intro ns
  induction ns with
  | nil =>
    intro visited queue v' q' h
    unfold visitNeighbors at h
    cases h
    exact ⟨[], by simp, by simp, List.nodup_nil, by simp, by simp, by simp⟩
  | cons n ns ih =>
    intro visited queue v' q' h
    unfold visitNeighbors at h
    split at h
    · cases h
    · split at h
      · rename_i hnt hnv
        obtain ⟨new, h1, h2, h3, h4, h5, h6⟩ := ih _ _ _ _ h
        refine ⟨new, h1, h2, h3, ?_, ?_, ?_⟩
        · exact fun m hm => ⟨List.mem_cons_of_mem _ (h4 m hm).1, (h4 m hm).2⟩
        · intro m hm
          rcases List.mem_cons.mp hm with rfl | hm'
          · exact hnt
          · exact h5 m hm'
        · intro m hm
          rcases List.mem_cons.mp hm with rfl | hm'
          · exact Or.inl hnv
          · exact h6 m hm'
      · rename_i hnt hnv
        obtain ⟨new, h1, h2, h3, h4, h5, h6⟩ := ih _ _ _ _ h
        have hnnew : n ∉ new := by
          intro hn
          have := (h4 n hn).2
          simp at this
        refine ⟨n :: new, ?_, ?_, ?_, ?_, ?_, ?_⟩
        · rw [h1]; simp
        · rw [h2]; simp
        · exact List.nodup_cons.mpr ⟨hnnew, h3⟩
        · intro m hm
          rcases List.mem_cons.mp hm with rfl | hm'
          · exact ⟨List.mem_cons_self .., hnv⟩
          · obtain ⟨hin, hnin⟩ := h4 m hm'
            refine ⟨List.mem_cons_of_mem _ hin, fun hmv => hnin ?_⟩
            simp [hmv]
        · intro m hm
          rcases List.mem_cons.mp hm with rfl | hm'
          · exact hnt
          · exact h5 m hm'
        · intro m hm
          rcases List.mem_cons.mp hm with rfl | hm'
          · exact Or.inr (List.mem_cons_self ..)
          · rcases h6 m hm' with hv | hn
            · rcases List.mem_append.mp hv with hv' | hv'
              · exact Or.inl hv'
              · simp at hv'
                subst hv'
                exact Or.inr (List.mem_cons_self ..)
            · exact Or.inr (List.mem_cons_of_mem _ hn)

/-- Inner-loop characterization: an early return happens exactly when
the target is among the neighbours, and yields `path ++ [target]`. -/
theorem visitNeighbors_inl (target : String) (path : List String) :
    ∀ (ns visited : List String) (queue : List (String × List String))
      (found : List String),
    visitNeighbors target path ns visited queue = Sum.inl found →
    found = path ++ [target] ∧ target ∈ ns := by
  intro ns
  induction ns with
  | nil => intro visited queue found h; cases h
  | cons n ns ih =>
    intro visited queue found h
    unfold visitNeighbors at h
    split at h
    · rename_i hnt
      cases h
      subst hnt
      exact ⟨rfl, List.mem_cons_self ..⟩
    · split at h
      · obtain ⟨h1, h2⟩ := ih _ _ _ h
        exact ⟨h1, List.mem_cons_of_mem _ h2⟩
      · obtain ⟨h1, h2⟩ := ih _ _ _ h
        exact ⟨h1, List.mem_cons_of_mem _ h2⟩

/-- Frontier cut: any valid path to an undiscovered room is longer than
the path stored at the queue head. -/
theorem bfs_exit (conns : List (String × List String))
    (start target current : String) (path : List String)
    (rest : List (String × List String)) (visited : List String)
    (inv : BfsInv conns start target ((current, path) :: rest) visited) :
    ∀ (q : List String) (u : String), pathOk conns start u q →
      u ∉ visited → path.length + 1 ≤ q.length := by
  have H : ∀ (n : Nat) (q : List String) (u : String), q.length ≤ n →
      pathOk conns start u q → u ∉ visited → path.length + 1 ≤ q.length := by
    intro n
    induction n with
    | zero =>
      intro q u hlen hq _
      exact absurd (List.eq_nil_of_length_eq_zero (Nat.le_zero.mp hlen))
        (pathOk_ne_nil _ _ _ _ hq)
    | succ n ih =>
      intro q u hlen hq hu
      rcases pathOk_concat_cases _ _ _ _ hq with ⟨rfl, rfl⟩ | ⟨p', v, rfl, hp', hedge⟩
      · exact absurd inv.start_mem hu
      · by_cases hv : v ∈ visited
        · have hvq : ∃ rp ∈ (current, path) :: rest, rp.1 = v := by
            by_contra hno
            push_neg at hno
            exact hu (inv.closure v hv hno u hedge)
          obtain ⟨rp, hrp, hrpv⟩ := hvq
          have hopt := inv.opt rp hrp p' (by rw [hrpv]; exact hp')
          have hmin : path.length ≤ rp.2.length := by
            rcases List.mem_cons.mp hrp with rfl | hmem
            · exact le_refl _
            · exact (List.pairwise_cons.mp inv.sorted).1 rp hmem
          have : path.length ≤ p'.length := le_trans hmin hopt
          simp only [List.length_append, List.length_singleton]
          omega
        · have hp'len : p'.length ≤ n := by
            have := hlen
            simp only [List.length_append, List.length_singleton] at this
            omega
          have := ih p' v hp'len hp' hv
          simp only [List.length_append, List.length_singleton]
          omega
  exact fun q u hq hu => H q.length q u (le_refl _) hq hu

/-- In an adjacency-closed visited set, room paths cannot escape. -/
theorem closed_path (conns : List (String × List String))
    (visited : List String)
    (hclosed : ∀ v ∈ visited, ∀ w, edge conns v w → w ∈ visited) :
    ∀ (p : List String) (A u : String), pathOk conns A u p →
      A ∈ visited → u ∈ visited := by
  intro p
  induction p with
  | nil => intro A u h; cases h.1
  | cons a rest ih =>
    intro A u h hA
    obtain ⟨hh, hl, hc⟩ := h
    have ha : a = A := by simpa using hh
    subst ha
    cases hrest : rest with
    | nil =>
      subst hrest
      have hau : a = u := by simpa using hl
      rw [← hau]
      exact hA
    | cons b rest' =>
      subst hrest
      have hedge : edge conns a b := (List.chain'_cons.mp hc).1
      have hb : b ∈ visited := hclosed a hA b hedge
      refine ih b u ⟨rfl, ?_, (List.chain'_cons.mp hc).2⟩ hb
      simpa using hl

/-- One BFS iteration with an early return yields a shortest valid path
from start to target. -/
theorem bfs_step_inl (conns : List (String × List String))
    (start target current : String) (path : List String)
    (rest : List (String × List String)) (visited : List String)
    (neighbors found : List String)
    (inv : BfsInv conns start target ((current, path) :: rest) visited)
    (hlk : lookup conns current = some neighbors)
    (hvn : visitNeighbors target path neighbors visited rest =
      Sum.inl found) :
    pathOk conns start target found ∧
    ∀ q, pathOk conns start target q → found.length ≤ q.length := by
  obtain ⟨hfound, htin⟩ := visitNeighbors_inl _ _ _ _ _ _ hvn
  subst hfound
  have hpath : pathOk conns start current path :=
    inv.paths (current, path) (List.mem_cons_self ..)
  have hedge : edge conns current target := ⟨neighbors, hlk, htin⟩
  refine ⟨pathOk_snoc _ _ _ _ _ hpath hedge, ?_⟩
  intro q hq
  have := bfs_exit conns start target current path rest visited inv q
    target hq inv.target_not_visited
  simpa using this

/-- One BFS iteration without an early return preserves the invariant. -/
theorem bfs_step_inr (conns : List (String × List String))
    (start target current : String) (path : List String)
    (rest : List (String × List String)) (visited : List String)
    (neighbors v' : List String) (q' : List (String × List String))
    (hclosed : ValuesClosed conns)
    (inv : BfsInv conns start target ((current, path) :: rest) visited)
    (hlk : lookup conns current = some neighbors)
    (hvn : visitNeighbors target path neighbors visited rest =
      Sum.inr (v', q')) :
    BfsInv conns start target q' v' := by
  obtain ⟨new, hv', hq', hnodup, hnew, hnt, hcover⟩ :=
    visitNeighbors_inr _ _ _ _ _ _ _ hvn
  subst hv'
  subst hq'
  have hpath : pathOk conns start current path :=
    inv.paths (current, path) (List.mem_cons_self ..)
  have hheadmin : ∀ rp ∈ rest, path.length ≤ rp.2.length :=
    (List.pairwise_cons.mp inv.sorted).1
  have hwindow0 : ∀ rp ∈ rest, rp.2.length ≤ path.length + 1 :=
    fun rp hrp => inv.window rp (List.mem_cons_of_mem _ hrp)
      (current, path) (List.mem_cons_self ..)
  have hnewpaths : ∀ n ∈ new, pathOk conns start n (path ++ [n]) := by
    intro n hn
    exact pathOk_snoc _ _ _ _ _ hpath ⟨neighbors, hlk, (hnew n hn).1⟩
  have hnewopt : ∀ n ∈ new, ∀ q, pathOk conns start n q →
      path.length + 1 ≤ q.length := by
    intro n hn q hq
    exact bfs_exit conns start target current path rest visited inv q n
      hq (hnew n hn).2
  have hmemq' : ∀ rp, rp ∈ rest ++ new.map (fun n => (n, path ++ [n])) →
      rp ∈ rest ∨ ∃ n ∈ new, rp = (n, path ++ [n]) := by
    intro rp hrp
    rcases List.mem_append.mp hrp with h | h
    · exact Or.inl h
    · obtain ⟨n, hn, heq⟩ := List.mem_map.mp h
      exact Or.inr ⟨n, hn, heq.symm⟩
  refine ⟨?_, ?_, ?_, ?_, ?_, ?_, ?_, ?_, ?_⟩
  · exact List.mem_append_left _ inv.start_mem
  · intro rp hrp
    rcases hmemq' rp hrp with h | ⟨n, hn, rfl⟩
    · exact inv.paths rp (List.mem_cons_of_mem _ h)
    · exact hnewpaths n hn
  · intro rp hrp
    rcases hmemq' rp hrp with h | ⟨n, hn, rfl⟩
    · exact List.mem_append_left _
        (inv.rooms_visited rp (List.mem_cons_of_mem _ h))
    · exact List.mem_append_right _ hn
  · intro htv
    rcases List.mem_append.mp htv with h | h
    · exact inv.target_not_visited h
    · exact absurd rfl (hnt target (hnew target h).1)
  · rw [List.pairwise_append]
    refine ⟨(List.pairwise_cons.mp inv.sorted).2, ?_, ?_⟩
    · rw [List.pairwise_map]
      exact List.pairwise_of_forall (fun n1 n2 => by simp)
    · intro rp hrp rq hrq
      obtain ⟨n, hn, rfl⟩ := List.mem_map.mp hrq
      simpa using hwindow0 rp hrp
  · intro rp hrp rq hrq
    rcases hmemq' rp hrp with h1 | ⟨n1, hn1, rfl⟩ <;>
      rcases hmemq' rq hrq with h2 | ⟨n2, hn2, rfl⟩
    · exact inv.window rp (List.mem_cons_of_mem _ h1)
        rq (List.mem_cons_of_mem _ h2)
    · simp only [List.length_append, List.length_singleton]
      have := hwindow0 rp h1
      omega
    · simp only [List.length_append, List.length_singleton]
      have := hheadmin rq h2
      omega
    · simp
  · intro rp hrp q hq
    rcases hmemq' rp hrp with h | ⟨n, hn, rfl⟩
    · exact inv.opt rp (List.mem_cons_of_mem _ h) q hq
    · simpa using hnewopt n hn q hq
  · intro v hv hnq w hw
    rcases List.mem_append.mp hv with hvv | hvnew
    · by_cases hvc : v = current
      · subst hvc
        obtain ⟨ns', hlk', hwns⟩ := hw
        rw [hlk] at hlk'
        cases hlk'
        rcases hcover w hwns with h | h
        · exact List.mem_append_left _ h
        · exact List.mem_append_right _ h
      · have hnoq : ∀ rp ∈ (current, path) :: rest, rp.1 ≠ v := by
          intro rp hrp
          rcases List.mem_cons.mp hrp with rfl | hmem
          · exact fun hc => hvc hc.symm
          · exact hnq rp (List.mem_append_left _ hmem)
        exact List.mem_append_left _ (inv.closure v hvv hnoq w hw)
    · exfalso
      exact hnq (v, path ++ [v])
        (List.mem_append_right _ (List.mem_map.mpr ⟨v, hvnew, rfl⟩)) rfl
  · intro rp hrp
    rcases hmemq' rp hrp with h | ⟨n, hn, rfl⟩
    · exact inv.keys rp (List.mem_cons_of_mem _ h)
    · exact hclosed (current, neighbors) (lookup_mem _ _ _ hlk) n
        (hnew n hn).1

/-- Soundness of the fuelled BFS loop: under the invariant, a returned
result is never the `KeyError`, a returned path is a shortest valid path
from start to target, and a `None` return means no valid path exists. -/
theorem bfsAux_sound (conns : List (String × List String))
    (start target : String) (hclosed : ValuesClosed conns) :
    ∀ (fuel : Nat) (queue : List (String × List String))
      (visited : List String) (r : Except Unit (Option (List String))),
    BfsInv conns start target queue visited →
    bfsAux conns target fuel queue visited = some r →
    r ≠ Except.error () ∧
    (∀ p, r = Except.ok (some p) →
      pathOk conns start target p ∧
      ∀ q, pathOk conns start target q → p.length ≤ q.length) ∧
    (r = Except.ok none → ∀ q, ¬ pathOk conns start target q) := by
  intro fuel
  induction fuel with
  | zero =>
    intro queue visited r _ h
    cases h
  | succ fuel ih =>
    intro queue visited r inv h
    cases queue with
    | nil =>
      unfold bfsAux at h
      injection h with h'
      subst h'
      refine ⟨fun hc => Except.noConfusion hc,
        fun p hp => absurd (Except.ok.inj hp)
          (fun hcon => Option.noConfusion hcon),
        fun _ q hq => ?_⟩
      have hcl : ∀ v ∈ visited, ∀ w, edge conns v w → w ∈ visited :=
        fun v hv w hw => inv.closure v hv (fun rp hrp => absurd hrp
          (List.not_mem_nil rp)) w hw
      exact inv.target_not_visited
        (closed_path conns visited hcl q start target hq inv.start_mem)
    | cons cp rest =>
      obtain ⟨current, path⟩ := cp
      unfold bfsAux at h
      cases hlk : lookup conns current with
      | none =>
        have := inv.keys (current, path) (List.mem_cons_self ..)
        rw [hlk] at this
        cases this
      | some neighbors =>
        rw [hlk] at h
        dsimp only at h
        cases hvn : visitNeighbors target path neighbors visited rest with
        | inl found =>
          rw [hvn] at h
          injection h with h'
          subst h'
          obtain ⟨h1, h2⟩ := bfs_step_inl conns start target current path
            rest visited neighbors found inv hlk hvn
          refine ⟨fun hc => Except.noConfusion hc, fun p hp => ?_,
            fun hc => absurd (Except.ok.inj hc)
              (fun hcon => Option.noConfusion hcon)⟩
          have hpf : found = p := Option.some.inj (Except.ok.inj hp)
          subst hpf
          exact ⟨h1, h2⟩
        | inr vq =>
          obtain ⟨v', q'⟩ := vq
          rw [hvn] at h
          exact ih q' v' r (bfs_step_inr conns start target current path
            rest visited neighbors v' q' hclosed inv hlk hvn) h

/-- Marking a fresh room visited strictly decreases the potential. -/
theorem countUnvisited_snoc (conns : List (String × List String))
    (visited : List String) (n : String) (hu : n ∈ univ conns)
    (hn : n ∉ visited) :
    countUnvisited conns (visited ++ [n]) + 1 ≤
      countUnvisited conns visited := by
  unfold countUnvisited
  have H : ∀ l : List String, n ∈ l →
      (l.filter (fun r => decide (r ∉ visited ++ [n]))).length + 1 ≤
      (l.filter (fun r => decide (r ∉ visited))).length := by
    intro l
    induction l with
    | nil => simp
    | cons a l ihl =>
      intro hmem
      have hmono : (l.filter (fun r => decide (r ∉ visited ++ [n]))).length ≤
          (l.filter (fun r => decide (r ∉ visited))).length := by
        rw [← List.countP_eq_length_filter, ← List.countP_eq_length_filter]
        refine List.countP_mono_left (fun x _ hx => ?_)
        simp only [decide_eq_true_eq, List.mem_append] at hx ⊢
        exact fun hxv => hx (Or.inl hxv)
      by_cases han : a = n
      · subst han
        have h1 : (decide (a ∉ visited ++ [a])) = false := by simp
        have h2 : (decide (a ∉ visited)) = true := by simp [hn]
        rw [List.filter_cons, List.filter_cons, h1, h2]
        simp only [Bool.false_eq_true, if_false, if_true, List.length_cons]
        omega
      · have hmem' : n ∈ l := by
          rcases List.mem_cons.mp hmem with h | h
          · exact absurd h.symm han
          · exact h
        have := ihl hmem'
        rw [List.filter_cons, List.filter_cons]
        by_cases hav : a ∈ visited
        · have h1 : (decide (a ∉ visited ++ [n])) = false := by
            simp [List.mem_append, hav]
          have h2 : (decide (a ∉ visited)) = false := by simp [hav]
          rw [h1, h2]
          simpa using this
        · have h1 : (decide (a ∉ visited ++ [n])) = true := by
            simp [List.mem_append, hav, han]
          have h2 : (decide (a ∉ visited)) = true := by simp [hav]
          rw [h1, h2]
          simp only [if_true, List.length_cons]
          omega
  exact H (univ conns) hu

/-- Marking several fresh rooms visited decreases the potential by at
least their number. -/
theorem countUnvisited_append (conns : List (String × List String)) :
    ∀ (new visited : List String), new.Nodup →
    (∀ n ∈ new, n ∉ visited) → (∀ n ∈ new, n ∈ univ conns) →
    countUnvisited conns (visited ++ new) + new.length ≤
      countUnvisited conns visited := by
  intro new
  induction new with
  | nil => intro visited _ _ _; simp
  | cons n new ihn =>
    intro visited hnodup hdisj huniv
    have hstep := countUnvisited_snoc conns visited n
      (huniv n (List.mem_cons_self ..)) (hdisj n (List.mem_cons_self ..))
    have hrec := ihn (visited ++ [n]) (List.nodup_cons.mp hnodup).2
      (fun m hm => by
        simp only [List.mem_append, List.mem_singleton]
        rintro (hv | rfl)
        · exact hdisj m (List.mem_cons_of_mem _ hm) hv
        · exact (List.nodup_cons.mp hnodup).1 hm)
      (fun m hm => huniv m (List.mem_cons_of_mem _ hm))
    have hassoc : visited ++ n :: new = (visited ++ [n]) ++ new := by simp
    rw [hassoc]
    simp only [List.length_cons]
    omega

/-- With fuel exceeding queue length plus potential, the BFS cannot run
out of fuel. -/
theorem bfsAux_fuel (conns : List (String × List String)) (target : String) :
    ∀ (fuel : Nat) (queue : List (String × List String))
      (visited : List String),
    queue.length + countUnvisited conns visited < fuel →
    bfsAux conns target fuel queue visited ≠ none := by
  intro fuel
  induction fuel with
  | zero => intro queue visited h; omega
  | succ fuel ih =>
    intro queue visited hlt
    cases queue with
    | nil => unfold bfsAux; simp
    | cons cp rest =>
      obtain ⟨current, path⟩ := cp
      unfold bfsAux
      cases hlk : lookup conns current with
      | none => simp
      | some neighbors =>
        dsimp only
        cases hvn : visitNeighbors target path neighbors visited rest with
        | inl found => simp
        | inr vq =>
          obtain ⟨v', q'⟩ := vq
          obtain ⟨new, hv', hq', hnodup, hnew, _, _⟩ :=
            visitNeighbors_inr _ _ _ _ _ _ _ hvn
          have huniv : ∀ n ∈ new, n ∈ univ conns := by
            intro n hn
            exact edge_mem_univ conns current n
              ⟨neighbors, hlk, (hnew n hn).1⟩
          have hcount := countUnvisited_append conns new visited hnodup
            (fun n hn => (hnew n hn).2) huniv
          apply ih
          subst hv'
          subst hq'
          simp only [List.length_append, List.length_map,
            List.length_cons] at hlt ⊢
          omega

/-- The initial BFS state satisfies the invariant. -/
theorem bfs_init_inv (conns : List (String × List String))
    (start target : String) (hne : start ≠ target)
    (hstart : (lookup conns start).isSome) :
    BfsInv conns start target [(start, [start])] [start] := by
  refine ⟨List.mem_singleton.mpr rfl, ?_, ?_, ?_, ?_, ?_, ?_, ?_, ?_⟩
  · intro rp hrp
    rw [List.mem_singleton.mp hrp]
    exact pathOk_single conns start
  · intro rp hrp
    rw [List.mem_singleton.mp hrp]
    simp
  · intro hc
    exact hne (List.mem_singleton.mp hc).symm
  · exact List.pairwise_singleton _ _
  · intro rp hrp rq hrq
    rw [List.mem_singleton.mp hrp, List.mem_singleton.mp hrq]
    simp
  · intro rp hrp q hq
    rw [List.mem_singleton.mp hrp]
    have := pathOk_ne_nil _ _ _ _ hq
    simp only [List.length_singleton]
    cases q with
    | nil => exact absurd rfl this
    | cons _ _ => simp
  · intro v hv hnq
    exfalso
    exact hnq (start, [start]) (List.mem_singleton.mpr rfl)
      (List.mem_singleton.mp hv).symm
  · intro rp hrp
    rw [List.mem_singleton.mp hrp]
    exact hstart

/-- Specification of `find_path_to_room` for distinct rooms with a
connections entry: no `KeyError`, returned paths are shortest valid room
paths, and `None` is returned exactly on disconnection. -/
theorem find_path_to_room_spec (conns : List (String × List String))
    (start target : String) (hclosed : ValuesClosed conns)
    (hstart : (lookup conns start).isSome) (hne : start ≠ target) :
    find_path_to_room conns start target ≠ Except.error () ∧
    (∀ p, find_path_to_room conns start target = Except.ok (some p) →
      pathOk conns start target p ∧
      ∀ q, pathOk conns start target q → p.length ≤ q.length) ∧
    (find_path_to_room conns start target = Except.ok none →
      ∀ q, ¬ pathOk conns start target q) := by
  unfold find_path_to_room
  rw [if_neg hne]
  cases hb : bfsAux conns target ((univ conns).length + 2) [(start, [start])]
      [start] with
  | none =>
    exfalso
    apply bfsAux_fuel conns target ((univ conns).length + 2)
      [(start, [start])] [start] ?_ hb
    have : countUnvisited conns [start] ≤ (univ conns).length :=
      List.length_filter_le _ _
    simp only [List.length_singleton]
    omega
  | some r =>
    have := bfsAux_sound conns start target hclosed
      ((univ conns).length + 2) [(start, [start])] [start] r
      (bfs_init_inv conns start target hne hstart) hb
    exact this

/-- Completeness: a connected pair makes `find_path_to_room` return a
path. -/
theorem find_path_to_room_complete (conns : List (String × List String))
    (start target : String) (hclosed : ValuesClosed conns)
    (hstart : (lookup conns start).isSome) (hne : start ≠ target)
    (hconn : ∃ q, pathOk conns start target q) :
    ∃ p, find_path_to_room conns start target = Except.ok (some p) := by
  obtain ⟨hnoerr, _, hnone⟩ :=
    find_path_to_room_spec conns start target hclosed hstart hne
  cases hr : find_path_to_room conns start target with
  | error e => cases e; exact absurd hr hnoerr
  | ok o =>
    cases o with
    | none =>
      obtain ⟨q, hq⟩ := hconn
      exact absurd hq (hnone hr q)
    | some p => exact ⟨p, rfl⟩

/-- C3 (amended): with the well-formedness guaranteed by the door file
loader (every listed neighbour has its own connections entry) and a
start room that has a connections entry, `find_path_to_room` returns
`[A]` for `A = B`; for `A ≠ B` every returned path is a valid room path
from `A` to `B` of minimal length (its length is the true shortest hop
count plus one), a path is returned whenever the rooms are connected,
and `None` is returned exactly when they are disconnected.  (When the
start room has no connections entry at all the code instead raises
`KeyError`; see the counterexample.) -/
theorem C3_find_path_shortest (conns : List (String × List String))
    (A B : String) (hclosed : ValuesClosed conns)
    (hA : (lookup conns A).isSome) :
    (A = B → find_path_to_room conns A B = Except.ok (some [A])) ∧
    (A ≠ B →
      (∀ p, find_path_to_room conns A B = Except.ok (some p) →
        p.head? = some A ∧ p.getLast? = some B ∧ pathOk conns A B p ∧
        ∀ q, pathOk conns A B q → p.length ≤ q.length) ∧
      ((∃ q, pathOk conns A B q) →
        ∃ p, find_path_to_room conns A B = Except.ok (some p)) ∧
      ((¬ ∃ q, pathOk conns A B q) →
        find_path_to_room conns A B = Except.ok none)) := by
  constructor
  · intro hAB
    unfold find_path_to_room
    rw [if_pos hAB]
  · intro hne
    obtain ⟨hnoerr, hsome, hnone⟩ :=
      find_path_to_room_spec conns A B hclosed hA hne
    refine ⟨?_, find_path_to_room_complete conns A B hclosed hA hne, ?_⟩
    · intro p hp
      obtain ⟨hpath, hmin⟩ := hsome p hp
      exact ⟨hpath.1, hpath.2.1, hpath, hmin⟩
    · intro hnc
      cases hr : find_path_to_room conns A B with
      | error e => cases e; exact absurd hr hnoerr
      | ok o =>
        cases o with
        | none => rfl
        | some p => exact absurd ⟨p, (hsome p hr).1⟩ hnc

/-- C3 witness: on the concrete line graph A - B - C, the BFS
specification instantiates with every hypothesis discharged. -/
theorem C3_witness :
    (("A" : String) = "C" →
      find_path_to_room c3Conns "A" "C" = Except.ok (some ["A"])) ∧
    (("A" : String) ≠ "C" →
      (∀ p, find_path_to_room c3Conns "A" "C" = Except.ok (some p) →
        p.head? = some "A" ∧ p.getLast? = some "C" ∧
        pathOk c3Conns "A" "C" p ∧
        ∀ q, pathOk c3Conns "A" "C" q → p.length ≤ q.length) ∧
      ((∃ q, pathOk c3Conns "A" "C" q) →
        ∃ p, find_path_to_room c3Conns "A" "C" = Except.ok (some p)) ∧
      ((¬ ∃ q, pathOk c3Conns "A" "C" q) →
        find_path_to_room c3Conns "A" "C" = Except.ok none)) :=
  C3_find_path_shortest c3Conns "A" "C" (by decide) (by decide)

/-- C3 counterexample: the claim says every disconnected pair yields
"no path" (`None`).  With start room A absent from the adjacency dict
(a room with no door), A and B are disconnected, yet the code raises
`KeyError` on `room_connections[current_room]` instead of returning
`None`. -/
theorem C3_counterexample :
    find_path_to_room [("B", ["C"]), ("C", ["B"])] "A" "B" =
      Except.error () ∧
    ("A" : String) ≠ "B" ∧
    lookup ([("B", ["C"]), ("C", ["B"])] :
      List (String × List String)) "A" = none ∧
    (∀ q, ¬ pathOk [("B", ["C"]), ("C", ["B"])] "A" "B" q) := by
  refine ⟨rfl, by decide, rfl, ?_⟩
  intro q hq
  obtain ⟨hh, hl, hc⟩ := hq
  cases q with
  | nil => cases hh
  | cons a rest =>
    have ha : a = "A" := by simpa using hh
    subst ha
    cases rest with
    | nil => simp at hl
    | cons b rest' =>
      obtain ⟨ns, hlk, _⟩ := (List.chain'_cons.mp hc).1
      simp [lookup] at hlk

/-! ## C4: waypoint expansion through doors. -/

/-- `EdgesHaveDoors` gives a door midpoint for every graph edge. -/
theorem edgesHaveDoors_edge (dm : DoorManager) (h : EdgesHaveDoors dm)
    (a b : String) (he : edge dm.room_connections a b) :
    (dm.get_door_position a b).isSome := by
  obtain ⟨ns, hlk, hb⟩ := he
  exact h (a, ns) (lookup_mem _ _ _ hlk) b hb

/-- `pairMidpoints` on a chained room path: one midpoint per consecutive
pair, in order. -/
theorem pairMidpoints_spec (dm : DoorManager)
    (conns : List (String × List String))
    (hdoors : ∀ a b, edge conns a b → (dm.get_door_position a b).isSome) :
    ∀ rp : List String, List.Chain' (edge conns) rp → rp ≠ [] →
    (pairMidpoints dm rp).length + 1 = rp.length ∧
    (∀ i, i + 1 < rp.length → (pairMidpoints dm rp)[i]? =
      dm.get_door_position (rp.getD i "") (rp.getD (i + 1) "")) := by
  intro rp
  induction rp with
  | nil => intro _ h; exact absurd rfl h
  | cons a rest ih =>
    intro hc _
    cases rest with
    | nil =>
      refine ⟨rfl, fun i hi => ?_⟩
      simp at hi
    | cons b rest' =>
      have hedge : edge conns a b := (List.chain'_cons.mp hc).1
      have hcrest : List.Chain' (edge conns) (b :: rest') :=
        (List.chain'_cons.mp hc).2
      obtain ⟨dp, hdp⟩ := Option.isSome_iff_exists.mp (hdoors a b hedge)
      obtain ⟨ihlen, ihidx⟩ := ih hcrest (by simp)
      have hunf : pairMidpoints dm (a :: b :: rest') =
          dp :: pairMidpoints dm (b :: rest') := by
        show (match dm.get_door_position a b with
          | some dp => [dp]
          | none => ([] : List (Int × Int))) ++
            pairMidpoints dm (b :: rest') =
          dp :: pairMidpoints dm (b :: rest')
        rw [hdp]
        rfl
      constructor
      · rw [hunf]
        simp only [List.length_cons] at ihlen ⊢
        omega
      · intro i hi
        rw [hunf]
        cases i with
        | zero => simpa using hdp.symm
        | succ i' =>
          simp only [List.getElem?_cons_succ, List.getD_cons_succ]
          exact ihidx i' (by simpa using hi)

/-- C4 (amended): for a well-formed board, an agent whose current room
has a connections entry, and a target cell resolving to a different,
reachable room, `find_path_through_doors` returns the door midpoints of
the consecutive pairs of the BFS room path, in order, followed by the
target cell: the list has (door crossings) + 1 entries and ends with the
requested cell.  (If the target resolves to no room it returns `[]`; if
no room path exists it returns `[]` when the current room has a
connections entry, and raises `KeyError` otherwise — see the
counterexample.) -/
theorem C4_waypoint_expansion (b : Board) (a : Agent) (tx ty : Int)
    (tr : String)
    (hclosed : ValuesClosed b.door_manager.room_connections)
    (hcur : (lookup b.door_manager.room_connections a.current_room).isSome)
    (hdoors : EdgesHaveDoors b.door_manager)
    (htr : get_room_at_position b (tx : ℚ) (ty : ℚ) none =
      Except.ok (some tr))
    (htrne : tr ≠ "") (hdiff : a.current_room ≠ tr)
    (hconn : ∃ q, pathOk b.door_manager.room_connections
      a.current_room tr q) :
    ∃ rp mids,
      find_path_to_room b.door_manager.room_connections a.current_room tr =
        Except.ok (some rp) ∧
      find_path_through_doors b a tx ty = Except.ok (mids ++ [(tx, ty)]) ∧
      mids.length + 1 = rp.length ∧
      (mids ++ [(tx, ty)]).length = (rp.length - 1) + 1 ∧
      (mids ++ [(tx, ty)]).getLast? = some (tx, ty) ∧
      (∀ i, i + 1 < rp.length → mids[i]? =
        b.door_manager.get_door_position (rp.getD i "")
          (rp.getD (i + 1) "")) := by
  obtain ⟨rp, hrp⟩ := find_path_to_room_complete
    b.door_manager.room_connections a.current_room tr hclosed hcur
    hdiff hconn
  have hpath : pathOk b.door_manager.room_connections a.current_room tr rp :=
    ((find_path_to_room_spec b.door_manager.room_connections a.current_room
      tr hclosed hcur hdiff).2.1 rp hrp).1
  have hrpne : rp ≠ [] := pathOk_ne_nil _ _ _ _ hpath
  obtain ⟨hlen, hidx⟩ := pairMidpoints_spec b.door_manager
    b.door_manager.room_connections
    (edgesHaveDoors_edge b.door_manager hdoors) rp hpath.2.2 hrpne
  refine ⟨rp, pairMidpoints b.door_manager rp, hrp, ?_, hlen, ?_, ?_, hidx⟩
  · unfold find_path_through_doors
    rw [htr]
    dsimp only
    rw [if_neg htrne, if_neg hdiff, hrp]
    dsimp only
    rw [if_neg hrpne]
  · simp only [List.length_append, List.length_singleton]
    omega
  · exact List.getLast?_concat _

/-- C4 witness: on the concrete two-room board the waypoint expansion
theorem instantiates, with cell `(3, 0)` resolving to room B. -/
theorem C4_witness :
    ∃ rp mids,
      find_path_to_room c4Board.door_manager.room_connections
        c4Agent.current_room "B" = Except.ok (some rp) ∧
      find_path_through_doors c4Board c4Agent 3 0 =
        Except.ok (mids ++ [(3, 0)]) ∧
      mids.length + 1 = rp.length ∧
      (mids ++ [((3 : Int), (0 : Int))]).length = (rp.length - 1) + 1 ∧
      (mids ++ [((3 : Int), (0 : Int))]).getLast? = some (3, 0) ∧
      (∀ i, i + 1 < rp.length → mids[i]? =
        c4Board.door_manager.get_door_position (rp.getD i "")
          (rp.getD (i + 1) "")) :=
  C4_waypoint_expansion c4Board c4Agent 3 0 "B" (by decide) (by decide)
    (by decide) rfl (by decide) (by decide)
    ⟨["A", "B"], rfl, rfl,
      List.Chain.cons ⟨["B"], rfl, List.mem_singleton.mpr rfl⟩
        List.Chain.nil⟩

/-- C4 counterexample: the claim says that when no room path exists the
function returns the empty list.  With the agent's current room absent
from the adjacency dict, the target cell resolves to room B and no room
path exists, yet `find_path_through_doors` propagates the BFS `KeyError`
instead of returning `[]`. -/
theorem C4_counterexample :
    find_path_through_doors c4cBoard c4cAgent 3 0 = Except.error () ∧
    get_room_at_position c4cBoard (3 : ℚ) (0 : ℚ) none =
      Except.ok (some "B") ∧
    (∀ q, ¬ pathOk c4cBoard.door_manager.room_connections "A" "B" q) := by
  refine ⟨rfl, rfl, ?_⟩
  intro q hq
  obtain ⟨hh, hl, hc⟩ := hq
  cases q with
  | nil => cases hh
  | cons a rest =>
    have ha : a = "A" := by simpa using hh
    subst ha
    cases rest with
    | nil => simp at hl
    | cons b rest' =>
      obtain ⟨ns, hlk, _⟩ := (List.chain'_cons.mp hc).1
      simp [lookup] at hlk

/-! ## C2: `current_room` changes and the threshold condition. -/

/-- `get_door_between_rooms` only returns doors that connect the two
queried rooms and belong to the door list. -/
theorem get_door_between_rooms_connects (dm : DoorManager) (r1 r2 : String)
    (d : Door) (h : dm.get_door_between_rooms r1 r2 = some d) :
    d.connects_rooms r1 r2 ∧ d ∈ dm.doors := by
  unfold DoorManager.get_door_between_rooms at h
  have H : ∀ l (d : Door), DoorManager.get_door_between_rooms.go r1 r2 l =
      some d → d.connects_rooms r1 r2 ∧ d ∈ l := by
    intro l
    induction l with
    | nil => intro d hd; simp [DoorManager.get_door_between_rooms.go] at hd
    | cons e rest ih =>
      intro d hd
      unfold DoorManager.get_door_between_rooms.go at hd
      split at hd
      · cases hd
        exact ⟨by assumption, List.mem_cons_self ..⟩
      · obtain ⟨hc, hm⟩ := ih d hd
        exact ⟨hc, List.mem_cons_of_mem _ hm⟩
  exact H dm.doors d h

/-- `set_target` never moves the agent or changes its tracked room. -/
theorem set_target_preserves_room (a : Agent) (x y : ℚ) (b : Board)
    (a' : Agent) (h : a.set_target x y b = Except.ok a') :
    a'.current_room = a.current_room ∧ a'.x = a.x ∧ a'.y = a.y := by
  unfold Agent.set_target at h
  split at h
  · cases h; exact ⟨rfl, rfl, rfl⟩
  · split at h
    · cases h
    · cases h; exact ⟨rfl, rfl, rfl⟩
    · cases h; exact ⟨rfl, rfl, rfl⟩

/-- `choose_random_plan` never moves the agent or changes its tracked
room. -/
theorem choose_random_plan_preserves_room (a : Agent) (b : Board)
    (o : Oracle) (a' : Agent) (o' : Oracle)
    (h : a.choose_random_plan b o = Except.ok (a', o')) :
    a'.current_room = a.current_room ∧ a'.x = a.x ∧ a'.y = a.y := by
  unfold Agent.choose_random_plan at h
  dsimp only at h
  repeat' split at h
  all_goals
    first
      | exact Except.noConfusion h
      | (cases h; exact ⟨rfl, rfl, rfl⟩)
      | (rename_i a₁ hst
         cases h
         have := set_target_preserves_room _ _ _ _ _ hst
         exact ⟨this.1, this.2.1, this.2.2⟩)

/-- `ensure_plan` never moves the agent or changes its tracked room. -/
theorem ensure_plan_preserves_room (a : Agent) (b : Board) (o : Oracle)
    (a' : Agent) (o' : Oracle)
    (h : a.ensure_plan b o = Except.ok (a', o')) :
    a'.current_room = a.current_room ∧ a'.x = a.x ∧ a'.y = a.y := by
  unfold Agent.ensure_plan at h
  split at h
  · exact choose_random_plan_preserves_room _ _ _ _ _ h
  · cases h; exact ⟨rfl, rfl, rfl⟩

/-- In the no-target branch of `update_position`, a change of the
tracked room implies the door entry-cell threshold condition (evaluated
at the unchanged position). -/
theorem update_position_no_target_threshold (a : Agent) (b : Board)
    (o : Oracle) (a' : Agent) (arr : Bool) (o' : Oracle)
    (h : a.update_position_no_target b o = Except.ok (a', arr, o'))
    (hne : a'.current_room ≠ a.current_room) :
    a'.x = a.x ∧ a'.y = a.y ∧
    thresholdCondition b.door_manager a.current_room a'.current_room
      a'.x a'.y := by
  unfold Agent.update_position_no_target at h
  split at h
  · -- no waypoints: ensure_plan, which preserves the room
    split at h
    · cases h
    · rename_i hens
      cases h
      exact absurd (ensure_plan_preserves_room _ _ _ _ _ hens).1 hne
  · -- waypoint processing
    split at h
    · cases h
    · dsimp only at h
      split at h
      · cases h; exact absurd rfl hne
      · split at h
        · cases h; exact absurd rfl hne
        · split at h
          · cases h; exact absurd rfl hne
          · split at h
            · cases h
            · split at h
              · -- crossed
                split at h
                · cases h
                · cases h
                  exact ⟨rfl, rfl, _, _, by assumption, by assumption,
                    Or.inl (by assumption)⟩
              · -- not crossed: entry-cell check
                split at h
                · cases h
                  exact ⟨rfl, rfl, _, _, by assumption, by assumption,
                    Or.inr (by assumption)⟩
                · cases h; exact absurd rfl hne

/-- C2 (amended): in `update_position` the tracked `current_room` changes
only at a verified threshold crossing — the door between the old and new
room exists and the crossed-or-entry-cell condition computed by the code
holds — and the new room is always connected to the old one by a door.
(`execute_plan` additionally reassigns `current_room` whenever
`get_room_at_position` resolves the agent's cell to a different room,
e.g. when the agent stands exactly on a door midpoint, where this
threshold condition need not hold; see the counterexample.) -/
theorem C2_room_change_needs_threshold (a : Agent) (b : Board) (o : Oracle)
    (a' : Agent) (arr : Bool) (o' : Oracle)
    (h : a.update_position b o = Except.ok (a', arr, o'))
    (hne : a'.current_room ≠ a.current_room) :
    thresholdCondition b.door_manager a.current_room a'.current_room
      a'.x a'.y ∧
    ∃ d, b.door_manager.get_door_between_rooms a.current_room
        a'.current_room = some d ∧
      d.connects_rooms a.current_room a'.current_room ∧ d ∈ b.door_manager.doors := by
  have main : thresholdCondition b.door_manager a.current_room
      a'.current_room a'.x a'.y := by
    unfold Agent.update_position at h
    split at h
    · dsimp only at h
      split at h
      · exact (update_position_no_target_threshold _ _ _ _ _ _ h hne).2.2
      · split at h
        · cases h; exact absurd rfl hne
        · split at h
          · cases h; exact absurd rfl hne
          · cases h; exact absurd rfl hne
    · exact (update_position_no_target_threshold _ _ _ _ _ _ h hne).2.2
  obtain ⟨d, dp, hd, hdp, hrest⟩ := main
  obtain ⟨hc, hm⟩ := get_door_between_rooms_connects _ _ _ _ hd
  exact ⟨⟨d, dp, hd, hdp, hrest⟩, d, hd, hc, hm⟩

/-- C2 witness: the concrete agent one cell past the vertical door of
`c2Board` commits its room change, and the theorem yields the verified
threshold condition and the connecting door. -/
theorem C2_witness :
    thresholdCondition c2Board.door_manager c2CrossAgent.current_room
      c2CrossResult.current_room c2CrossResult.x c2CrossResult.y ∧
    ∃ d, c2Board.door_manager.get_door_between_rooms
        c2CrossAgent.current_room c2CrossResult.current_room = some d ∧
      d.connects_rooms c2CrossAgent.current_room
        c2CrossResult.current_room ∧ d ∈ c2Board.door_manager.doors :=
  C2_room_change_needs_threshold c2CrossAgent c2Board [] c2CrossResult
    false [] rfl (by decide)

/-- C2 counterexample: the claim says `current_room` changes only at a
step where the entry-cell threshold condition holds.  `execute_plan` on
an agent standing exactly on the door midpoint `(2, 0)` (a queued
routing waypoint, hence a reachable position) flips its room from A to B
through `get_room_at_position`, yet the threshold condition computed by
the movement code is false there: the agent is on the door line, not
across it, and not on the entry cell. -/
theorem C2_counterexample :
    (execute_plan c2Board c2Agent []).toOption.map
        (fun r => r.2.1.current_room) = some "B" ∧
    c2Agent.current_room = "A" ∧
    ¬ thresholdCondition c2Board.door_manager "A" "B" c2Agent.x
      c2Agent.y := by
  refine ⟨rfl, rfl, ?_⟩
  rintro ⟨d, dp, hd, hdp, hcond⟩
  have hd2 : (⟨"A", "B", 2, 0, 2, 1⟩ : Door) = d := by
    have h0 : c2Board.door_manager.get_door_between_rooms "A" "B" =
        some ⟨"A", "B", 2, 0, 2, 1⟩ := rfl
    exact Option.some.inj (h0.symm.trans hd)
  cases hd2
  have hdp2 : ((2, 0) : Int × Int) = dp := by
    have h0 : c2Board.door_manager.get_door_position "A" "B" =
        some (2, 0) := rfl
    exact Option.some.inj (h0.symm.trans hdp)
  cases hdp2
  rcases hcond with hc | he
  · unfold crossedCond at hc
    rw [if_neg (by decide : ¬(Door.is_horizontal ⟨"A", "B", 2, 0, 2, 1⟩))]
      at hc
    rcases hc with ⟨_, hgt⟩ | ⟨hab, _⟩
    · norm_num [c2Agent] at hgt
    · exact absurd hab (by decide)
  · unfold entryPos at he
    rw [if_neg (by decide : ¬(Door.is_horizontal ⟨"A", "B", 2, 0, 2, 1⟩))]
      at he
    have := congrArg Prod.fst he
    rw [if_pos rfl] at this
    norm_num [c2Agent] at this

/-- C1 witness: on the concrete two-agent fixture the dispatch selects
agent 0 and leaves the entry of every other index unchanged. -/
theorem C1_witness :
    c1Result.2.1.length = ([c1A0, c1A1] : List Agent).length ∧
    ∀ j, j ≠ ([0] : Oracle).headD 0 % ([c1A0, c1A1] : List Agent).length →
      c1Result.2.1[j]? = ([c1A0, c1A1] : List Agent)[j]? :=
  C1_dispatch_writes_only_selected emptyBoard [c1A0, c1A1] [0] c1Result rfl

/-- C1 counterexample: the claim says the state of every agent not
selected on a tick is unchanged.  On the fixture the tick selects agent
0 (oracle head 0), yet the frame's `BoardGame.update` pass moves agent 1
by one speed step before the dispatch, so the non-selected agent's
position changes during the tick. -/
theorem C1_counterexample :
    frameStep emptyBoard [c1A0, c1A1] [0] =
      Except.ok (emptyBoard, [c1A0, c1A1Moved], []) ∧
    c1A1Moved.x ≠ c1A1.x ∧
    ([0] : Oracle).headD 0 % ([c1A0, c1A1] : List Agent).length = 0 := by
  have hA1 : c1A1.update_position emptyBoard [0] =
      Except.ok (c1A1Moved, false, [0]) :=
    update_position_move_x c1A1 emptyBoard [0] 5 0 rfl rfl
      (by norm_num [c1A1, pyAbs]) (by norm_num [c1A1, pyAbs])
  refine ⟨?_, by norm_num [c1A1Moved, c1A1], rfl⟩
  unfold frameStep
  have hrest : update_list emptyBoard [c1A1] [0] =
      Except.ok ([c1A1Moved], [0]) := by
    unfold update_list
    rw [hA1]
    dsimp only
    rw [if_neg (fun hcon => Bool.noConfusion hcon.1 :
      ¬(false = true ∧ c1A1Moved.needs_new_target))]
    rfl
  have hupd : update_list emptyBoard [c1A0, c1A1] [0] =
      Except.ok ([c1A0, c1A1Moved], [0]) := by
    unfold update_list
    rw [show c1A0.update_position emptyBoard [0] =
      Except.ok (c1A0, true, [0]) from rfl]
    dsimp only
    rw [if_pos (⟨rfl, rfl, rfl⟩ : true = true ∧ c1A0.needs_new_target)]
    rw [show choose_new_plan emptyBoard c1A0 [0] = Except.ok (c1A0, [0])
      from rfl]
    dsimp only
    rw [hrest]
  rw [hupd]
  rfl

/-- C10 witness: with ten lines remembered, an eleventh conversation
drops exactly the oldest line. -/
theorem C10_witness :
    ((c10Agent.remember_conversation 7 "hi").memory.length ≤ 10) ∧
    ((c10Agent.remember_conversation 7 "hi").memory.getLast? =
      some s!"With {(7 : Int)}: hi") ∧
    (c10Agent.memory.length < 10 →
      (c10Agent.remember_conversation 7 "hi").memory =
        c10Agent.memory ++ [s!"With {(7 : Int)}: hi"]) ∧
    (c10Agent.memory.length = 10 →
      (c10Agent.remember_conversation 7 "hi").memory =
        c10Agent.memory.tail ++ [s!"With {(7 : Int)}: hi"]) :=
  C10_memory_bounded c10Agent 7 "hi" (by decide)

end Plandemic
